import Mathlib

set_option maxRecDepth 10000

/-!
Shallow embedding of the bridge-viewer PLY loader sources and proofs about
them.  The repository holds several near-duplicate variants of the same
loader:

* namespace PJ  — src/PLYLoader.js
* namespace P0  — src/unnamed/part_000
* namespace P1  — src/unnamed/part_001, first variant (lines 1-360)
* namespace PD  — src/unnamed/part_001, second variant (lines 361-586)

JavaScript numbers are modelled by the inductive type Val: undefined, NaN,
the two infinities, and finite numbers as exact rationals (float rounding of
decimal literals is not modelled; IEEE-754 binary decoding is modelled
exactly, every finite float being a rational).  Thrown JS exceptions are
modelled by Except JsErr.  Byte buffers are lists of naturals below 256 and
JS strings appearing as data are lists of character codes (List Nat).
-/

namespace Ply

/-- JavaScript runtime values the loader manipulates. -/
inductive Val where
  | undef
  | nan
  | inf
  | neginf
  | num (q : Rat)
deriving DecidableEq, Repr

/-- Record field values: a scalar property stores a number, a list property
stores an array of numbers. -/
inductive RVal where
  | v (x : Val)
  | arr (xs : List Val)
deriving DecidableEq, Repr

/-- JS exceptions thrown while parsing: DataView RangeError, TypeError from a
property access on undefined or null, and explicit throw statements. -/
inductive JsErr where
  | rangeErr
  | typeErr
  | thrown (msg : String)
deriving DecidableEq, Repr

/-- JS truthiness of a number-like value (0, NaN and undefined are falsy). -/
def truthyV : Val → Bool
  | .undef => false
  | .nan => false
  | .num q => decide (q ≠ 0)
  | _ => true

/-- JS truthiness of an optional string (null/undefined and the empty string
are falsy). -/
def truthyS : Option String → Bool
  | none => false
  | some s => decide (s ≠ "")

/-- JS comparison v > c against a positive rational constant: NaN, undefined
and negative infinity compare false, positive infinity true. -/
def valGt (v : Val) (c : Rat) : Bool :=
  match v with
  | .num q => decide (c < q)
  | .inf => true
  | _ => false

/-- JS division v / c by a positive natural constant: undefined and NaN give
NaN, infinities keep their sign; q / c is written mkRat (q.num) (q.den * c),
which is the same rational, because the generic rational division operator is
irreducible and would block kernel evaluation. -/
def valDivN (v : Val) (c : Nat) : Val :=
  match v with
  | .num q => .num (mkRat q.num (q.den * c))
  | .inf => .inf
  | .neginf => .neginf
  | _ => .nan

/-- Whitespace character codes recognised by both String.prototype.trim and
the \s character class for the codepoints that can appear here (tab, LF, VT,
FF, CR, space, NBSP). -/
def isWS (b : Nat) : Bool :=
  b == 9 || b == 10 || b == 11 || b == 12 || b == 13 || b == 32 || b == 160

/-- JS String.prototype.trim on a list of character codes. -/
def trimB (l : List Nat) : List Nat :=
  ((l.dropWhile isWS).reverse.dropWhile isWS).reverse

/-- Split a character-code string on the regex matching LF optionally
preceded by CR (text.split with that regex); a lone CR is not a separator
and stays inside its line. -/
def splitLines : List Nat → List (List Nat)
  | [] => [[]]
  | 13 :: 10 :: rest => [] :: splitLines rest
  | 10 :: rest => [] :: splitLines rest
  | b :: rest =>
    match splitLines rest with
    | l :: ls => (b :: l) :: ls
    | [] => [[b]]

/-- Helper for whitespace tokenisation: accumulates the current token in
reverse. -/
def tokensAux : List Nat → List Nat → List (List Nat)
  | [], acc => if acc.isEmpty then [] else [acc.reverse]
  | b :: rest, acc =>
    if isWS b then
      if acc.isEmpty then tokensAux rest [] else acc.reverse :: tokensAux rest []
    else tokensAux rest (b :: acc)

/-- Maximal runs of non-whitespace characters. -/
def splitTokens (l : List Nat) : List (List Nat) := tokensAux l []

/-- JS String.prototype.split on runs of whitespace, applied to an already
trimmed string: the empty string yields one empty token, otherwise the
non-whitespace runs. -/
def splitWsJs (l : List Nat) : List (List Nat) :=
  if l.isEmpty then [[]] else splitTokens l

/-- Character codes of a Lean string (the loader builds JS strings from
single-byte character codes, so this is the inverse of that construction for
code points below 256). -/
def bytesOf (s : String) : List Nat := s.data.map Char.toNat

/-- Lean string from character codes. -/
def strOf (l : List Nat) : String := String.mk (l.map Char.ofNat)

/-- Join a list of code strings with LF, as Array.prototype.join with a
newline separator does. -/
def joinNL : List (List Nat) → List Nat
  | [] => []
  | [l] => l
  | l :: rest => l ++ 10 :: joinNL rest

/-- Decimal digit value of a character code. -/
def decDigit (b : Nat) : Option Nat :=
  if 48 ≤ b ∧ b ≤ 57 then some (b - 48) else none

/-- Hexadecimal digit value of a character code. -/
def hexDigit (b : Nat) : Option Nat :=
  if 48 ≤ b ∧ b ≤ 57 then some (b - 48)
  else if 97 ≤ b ∧ b ≤ 102 then some (b - 87)
  else if 65 ≤ b ∧ b ≤ 70 then some (b - 55)
  else none

/-- Accumulate a run of digits left to right. -/
def digitsAux (base : Nat) (dig : Nat → Option Nat) : List Nat → Nat → Nat
  | [], acc => acc
  | b :: rest, acc =>
    match dig b with
    | some d => digitsAux base dig rest (acc * base + d)
    | none => acc

/-- Parse a non-empty leading digit run; none when the first character is not
a digit. -/
def parseDigits (base : Nat) (dig : Nat → Option Nat) : List Nat → Option Nat
  | [] => none
  | b :: rest =>
    match dig b with
    | some d => some (digitsAux base dig rest d)
    | none => none

/-- JS parseInt on a whitespace-free token: optional sign, then either a 0x/0X
hexadecimal literal or a run of decimal digits; NaN when no digit follows. -/
def parseIntB (l : List Nat) : Val :=
  let sr : Int × List Nat :=
    match l with
    | 43 :: r => (1, r)
    | 45 :: r => (-1, r)
    | _ => (1, l)
  let core : Option Nat :=
    match sr.2 with
    | 48 :: 120 :: r2 => parseDigits 16 hexDigit r2
    | 48 :: 88 :: r2 => parseDigits 16 hexDigit r2
    | r1 => parseDigits 10 decDigit r1
  match core with
  | some n => .num ((sr.1 * n : Int) : Rat)
  | none => .nan

/-- Leading decimal-digit run with its length and the remaining input. -/
def decRunAux : List Nat → Nat → Nat → Nat × Nat × List Nat
  | [], acc, cnt => (acc, cnt, [])
  | b :: rest, acc, cnt =>
    match decDigit b with
    | some d => decRunAux rest (acc * 10 + d) (cnt + 1)
    | none => (acc, cnt, b :: rest)

/-- Character codes of the literal Infinity. -/
def infinityBytes : List Nat := bytesOf (r"Infinity")

/-- JS parseFloat on a whitespace-free token: optional sign, the literal
Infinity, or integer part, optional fraction, optional exponent; NaN when no
digit occurs before the exponent. -/
def parseFloatB (l : List Nat) : Val :=
  let sr : Bool × List Nat :=
    match l with
    | 43 :: r => (false, r)
    | 45 :: r => (true, r)
    | _ => (false, l)
  if sr.2.take 8 = infinityBytes then (if sr.1 then .neginf else .inf)
  else
    let ipr := decRunAux sr.2 0 0
    let fpr : Nat × Nat × List Nat :=
      match ipr.2.2 with
      | 46 :: r => decRunAux r 0 0
      | r => (0, 0, r)
    if ipr.2.1 + fpr.2.1 = 0 then .nan
    else
      let mnum : Nat := ipr.1 * 10 ^ fpr.2.1 + fpr.1
      let ex : Int :=
        match fpr.2.2 with
        | 101 :: r => parseFloatExp r
        | 69 :: r => parseFloatExp r
        | _ => 0
      let q : Rat :=
        if 0 ≤ ex then mkRat (mnum * 10 ^ ex.toNat : Nat) (10 ^ fpr.2.1)
        else mkRat (mnum : Nat) (10 ^ fpr.2.1 * 10 ^ (-ex).toNat)
      .num (if sr.1 then -q else q)
where
  /-- Exponent part after the letter e: optional sign then digits; ignored
  (exponent 0) when no digit follows. -/
  parseFloatExp (r : List Nat) : Int :=
    let er : Int × List Nat :=
      match r with
      | 43 :: rr => (1, rr)
      | 45 :: rr => (-1, rr)
      | _ => (1, r)
    let dr := decRunAux er.2 0 0
    if dr.2.1 = 0 then 0 else er.1 * dr.1

/-- Little-endian value of a byte list (bytes reduced mod 256 as Uint8Array
stores them). -/
def leNat : List Nat → Nat
  | [] => 0
  | b :: rest => b % 256 + 256 * leNat rest

/-- Assembled unsigned value of a byte slice for the given endianness. -/
def natOfBytes (bs : List Nat) (little : Bool) : Nat :=
  if little then leNat bs else leNat bs.reverse

/-- Two's-complement reinterpretation of an sz-byte unsigned value. -/
def signedVal (sz : Nat) (n : Nat) : Val :=
  if 2 ^ (8 * sz - 1) ≤ n then .num (((n : Int) - 2 ^ (8 * sz) : Int) : Rat)
  else .num (n : Rat)

/-- Exact value of an IEEE-754 binary float with eb exponent bits and mb
mantissa bits, from its bit pattern. -/
def ieeeVal (eb mb : Nat) (n : Nat) : Val :=
  let s := n / 2 ^ (eb + mb)
  let e := (n / 2 ^ mb) % 2 ^ eb
  let m := n % 2 ^ mb
  if e = 2 ^ eb - 1 then
    if m = 0 then (if s % 2 = 1 then .neginf else .inf) else .nan
  else
    let bias := 2 ^ (eb - 1) - 1
    let numv : Nat := if e = 0 then 2 * m else (2 ^ mb + m) * 2 ^ e
    let mag : Rat := mkRat numv (2 ^ (bias + mb))
    .num (if s % 2 = 1 then -mag else mag)

/-- Byte width and bit-pattern decoder for each PLY primitive type spelling,
mirroring getReader in all variants; none for an unrecognised spelling
(getReader then returns undefined and the first read throws). -/
def typeDecode (t : String) : Option (Nat × (Nat → Val)) :=
  if t = "char" ∨ t = "int8" then some (1, signedVal 1)
  else if t = "uchar" ∨ t = "uint8" then some (1, fun n => .num (n : Rat))
  else if t = "short" ∨ t = "int16" then some (2, signedVal 2)
  else if t = "ushort" ∨ t = "uint16" then some (2, fun n => .num (n : Rat))
  else if t = "int" ∨ t = "int32" then some (4, signedVal 4)
  else if t = "uint" ∨ t = "uint32" then some (4, fun n => .num (n : Rat))
  else if t = "float" ∨ t = "float32" then some (4, ieeeVal 8 23)
  else if t = "double" ∨ t = "float64" then some (8, ieeeVal 11 52)
  else none

/-- Same table on an optional type name; a missing name behaves like an
unknown one (getReader(undefined) is undefined). -/
def typeDecodeO : Option String → Option (Nat × (Nat → Val))
  | some t => typeDecode t
  | none => none

/-- Model of a JS DataView over an ArrayBuffer with a byte offset. -/
structure DataView where
  buffer : List Nat
  base : Nat
deriving DecidableEq, Repr

/-- Read one value of primitive type t at view-relative offset o: TypeError
when the reader for t is undefined, RangeError when the access leaves the
buffer, otherwise the decoded value. -/
def dvRead (dv : DataView) (little : Bool) (t : Option String) (o : Nat) : Except JsErr Val :=
  match typeDecodeO t with
  | none => .error .typeErr
  | some sd =>
    if dv.base + o + sd.1 ≤ dv.buffer.length then
      .ok (sd.2 (natOfBytes ((dv.buffer.drop (dv.base + o)).take sd.1) little))
    else .error .rangeErr

/-- Number of iterations of a JS loop for k from 0 while k < v: the ceiling
of a positive finite bound (computed as an integer division, exact because
the bound is positive), rem+1 for an infinite bound (the callers pass the
buffer length, after which every further read throws RangeError, which is how
the JS loop terminates), and 0 for NaN, undefined and non-positive bounds. -/
def listIters (v : Val) (rem : Nat) : Nat :=
  match v with
  | .num q => if q ≤ 0 then 0 else ((q.num + (q.den : Int) - 1) / (q.den : Int)).toNat
  | .inf => rem + 1
  | _ => 0

/-- Iteration count for element records (element counts come from parseInt
and are never infinite). -/
def iterCount (v : Val) : Nat := listIters v 0

/-- Integer type spellings whose ASCII tokens go through parseInt; all other
types (including the spelling list and undefined) go through parseFloat. -/
def intTypeNames : List String :=
  [r"char", r"uchar", r"short", r"ushort", r"int", r"uint",
   r"int8", r"uint8", r"int16", r"uint16", r"int32", r"uint32"]

/-- ASCII read of one token for a declared type: integer families use
parseInt, everything else parseFloat; a missing token is the undefined value,
whose string coercion parses as NaN. -/
def readAsciiTok (t : Option String) (tok : Option (List Nat)) : Val :=
  match tok with
  | none => .nan
  | some bs =>
    match t with
    | some tn => if tn ∈ intTypeNames then parseIntB bs else parseFloatB bs
    | none => parseFloatB bs

/-- Optional-string constants for the name comparisons of the sources. -/
def oVertex : Option String := some (r"vertex")

/-- Element name face. -/
def oFace : Option String := some (r"face")

/-- Property kind keyword list. -/
def oList : Option String := some (r"list")

/-- Format name ascii. -/
def oAscii : Option String := some (r"ascii")

/-- Format name binary_little_endian. -/
def oBinLE : Option String := some (r"binary_little_endian")

/-- Slot names compared against property names in the vertex branches. -/
def oX : Option String := some (r"x")

/-- Slot name y. -/
def oY : Option String := some (r"y")

/-- Slot name z. -/
def oZ : Option String := some (r"z")

/-- Slot name red. -/
def oRed : Option String := some (r"red")

/-- Slot name green. -/
def oGreen : Option String := some (r"green")

/-- Slot name blue. -/
def oBlue : Option String := some (r"blue")

/-- Record key for the face vertex-index list. -/
def sVertexIndices : String := "vertex_indices"

/-- Record key of the alternative face vertex-index property name. -/
def sVertexIndex : String := "vertex_index"

/-- Property of an element schema, as stored by every parseHeader variant;
token fields missing on a malformed line are undefined (none). -/
inductive PropSpec where
  | scalar (type : Option String) (name : Option String)
  | list (countType : Option String) (itemType : Option String) (name : Option String)
deriving DecidableEq, Repr

/-- Whether a property is a list property. -/
def PropSpec.isListP : PropSpec → Bool
  | .list _ _ _ => true
  | .scalar _ _ => false

/-- Name field of a property. -/
def PropSpec.pname : PropSpec → Option String
  | .scalar _ n => n
  | .list _ _ n => n

/-- The type field as stored on the JS property object: the scalar type name,
or the string list for a list property. -/
def PropSpec.jsType : PropSpec → Option String
  | .scalar t _ => t
  | .list _ _ _ => oList

/-- Element entry of a parsed header. -/
structure PElem where
  name : Option String
  count : Val
  properties : List PropSpec
deriving DecidableEq, Repr

/-- Parsed header shared by the variants (comments and obj_info are collected
by some variants but never read back; they are omitted here). -/
structure Header where
  format : Option String := none
  version : Option String := none
  elements : List PElem := []
  headerLength : Nat := 0
deriving DecidableEq, Repr

/-- JS property key for storing a record field: an undefined property name
coerces to the key undefined. -/
def keyOf : Option String → String
  | some s => s
  | none => "undefined"

/-- JS property key for reading a record field through an attribute map slot
that can be null: null coerces to the key null. -/
def lookKey : Option String → String
  | some s => s
  | none => "null"

/-- Decoded element record: assignment list, later assignments first. -/
abbrev Record := List (String × RVal)

/-- Record field assignment (e[k] = v). -/
def setR (e : Record) (k : String) (rv : RVal) : Record := (k, rv) :: e

/-- Record field access (e[k]); undefined when the key is absent. -/
def lookupR (e : Record) (k : String) : Option RVal :=
  (e.find? (fun p => p.1 = k)).map (fun p => p.2)

/-- Record field access with the undefined value for an absent key (the raw
stored value, scalar or array, is returned as in JS). -/
def getR (e : Record) (k : String) : RVal :=
  (lookupR e k).getD (.v .undef)

/-- Character codes of the header terminator token. -/
def endHeaderBytes : List Nat := bytesOf (r"end_header")

/-- Message of the explicit throw in PLYLoader.js extractHeader. -/
def headerNotFoundMsg : String := "PLY header not found or malformed."

/-- Message of the explicit throw in PLYLoader.js parseBinary for a list
property on a vertex element. -/
def vertexListMsg : String := "顶点属性不能是 list"

/-- Run an effectful step n times, threading the state. -/
def iterE {α : Type} (f : α → Except JsErr α) : Nat → α → Except JsErr α
  | 0, a => .ok a
  | n + 1, a => do iterE f n (← f a)

/-- Fold an effectful step over a list, threading the state. -/
def foldE {α β : Type} (f : β → α → Except JsErr α) : List β → α → Except JsErr α
  | [], a => .ok a
  | b :: rest, a => do foldE f rest (← f b a)

/-- Index of the first occurrence of a byte pattern. -/
def firstOcc (pat : List Nat) : List Nat → Option Nat
  | [] => if pat.isEmpty then some 0 else none
  | b :: rest =>
    if pat.isPrefixOf (b :: rest) then some 0
    else (firstOcc pat rest).map (fun i => i + 1)

/-- Whether a byte pattern occurs contiguously in a list. -/
def hasRun (pat : List Nat) (l : List Nat) : Bool := (firstOcc pat l).isSome

/-- Segment of text.split on the terminator token at position 1: the text
between the first occurrence of the token and the second one (or the end),
undefined (none) when the token does not occur. -/
def bodyChunk (text : List Nat) : Option (List Nat) :=
  match firstOcc endHeaderBytes text with
  | none => none
  | some i =>
    let rest := text.drop (i + endHeaderBytes.length)
    match firstOcc endHeaderBytes rest with
    | none => some rest
    | some j => some (rest.take j)

namespace PJ

/-- Byte scanner of PLYLoader.js extractHeader: accumulates the current line
and the pushed (trimmed) lines, incrementing the byte index per character;
stops (inl, with the byte index just past the line terminator) when a trimmed
line equals the terminator token, otherwise runs off the end (inr, with the
final scanner state). -/
def scan : List Nat → List Nat → List (List Nat) → Nat →
    Sum (List (List Nat) × Nat) (List Nat × List (List Nat) × Nat)
  | [], line, lines, idx => .inr (line, lines, idx)
  | b :: rest, line, lines, idx =>
    if b = 10 ∨ b = 13 then
      let t := trimB line
      if t = endHeaderBytes then .inl (lines ++ [t], idx + 1)
      else scan rest [] (lines ++ [t]) (idx + 1)
    else scan rest (line ++ [b]) lines (idx + 1)

/-- PLYLoader.js extractHeader: the pushed lines and headerLength on success,
none when the scan runs off the end (the source then throws). -/
def extractHeader (bytes : List Nat) : Option (List (List Nat) × Nat) :=
  match scan bytes [] [] 0 with
  | .inl r => some r
  | .inr _ => none

/-- Line-directive loop of PLYLoader.js parseHeader: processes each trimmed
line, opening elements and collecting properties; a property line with no
open element dereferences null and throws. -/
def procLines : List (List Nat) → Option PElem → Header → Except JsErr Header
  | [], cur, h =>
    .ok { h with elements := h.elements ++ (match cur with | some e => [e] | none => []) }
  | l :: rest, cur, h =>
    let t := trimB l
    if t.isEmpty then procLines rest cur h
    else
      match splitTokens t with
      | [] => procLines rest cur h
      | key :: parts =>
        let k := strOf key
        if k = "format" then
          procLines rest cur
            { h with format := (parts.get? 0).map strOf, version := (parts.get? 1).map strOf }
        else if k = "element" then
          let e : PElem :=
            { name := (parts.get? 0).map strOf,
              count := (match parts.get? 1 with | some tk => parseIntB tk | none => .nan),
              properties := [] }
          match cur with
          | some c => procLines rest (some e) { h with elements := h.elements ++ [c] }
          | none => procLines rest (some e) h
        else if k = "property" then
          match cur with
          | none => .error .typeErr
          | some c =>
            let prop : PropSpec :=
              if (parts.get? 0).map strOf = oList then
                .list ((parts.get? 1).map strOf) ((parts.get? 2).map strOf)
                  ((parts.get? 3).map strOf)
              else .scalar ((parts.get? 0).map strOf) ((parts.get? 1).map strOf)
            procLines rest (some { c with properties := c.properties ++ [prop] }) h
        else procLines rest cur h

/-- PLYLoader.js parseHeader on header text (split into lines as the source
does with the CR-LF regex). -/
def parseHeader (text : List Nat) (hl : Nat) : Except JsErr Header :=
  procLines (splitLines text) none { headerLength := hl }

/-- Mesh output of PLYLoader.js: the three arrays handed to buildGeometry
(geometry construction itself — Float32 conversion, attribute objects,
bounding volumes — is outside the decoder core). -/
structure Mesh where
  vertices : List Val := []
  colors : List Val := []
  indices : List Val := []
deriving DecidableEq, Repr

/-- Per-record slots x,y,z,red,green,blue of the vertex branches. -/
structure VAssign where
  x : Val := .undef
  y : Val := .undef
  z : Val := .undef
  r : Val := .undef
  g : Val := .undef
  b : Val := .undef
deriving DecidableEq, Repr

/-- Name-directed assignment of one decoded property value to the vertex
slots (the six independent if statements of the source). -/
def assign (a : VAssign) (n : Option String) (v : Val) : VAssign :=
  let a1 := if n = oX then { a with x := v } else a
  let a2 := if n = oY then { a1 with y := v } else a1
  let a3 := if n = oZ then { a2 with z := v } else a2
  let a4 := if n = oRed then { a3 with r := v } else a3
  let a5 := if n = oGreen then { a4 with g := v } else a4
  if n = oBlue then { a5 with b := v } else a5

/-- Vertex append of PLYLoader.js: positions always, colors only when red was
assigned (r != null), each color component divided by 255 (the file defines
normalizeColor but neither parse path calls it). -/
def pushVertex (m : Mesh) (a : VAssign) : Mesh :=
  { m with
    vertices := m.vertices ++ [a.x, a.y, a.z],
    colors := m.colors ++
      (if a.r = .undef then []
       else [valDivN a.r 255, valDivN a.g 255, valDivN a.b 255]) }

/-- Triangle emission from one face vertex-index list: length 3 verbatim,
length 4 as the fan (a,b,c),(c,d,a), anything else nothing. -/
def faceIndices (vs : List Val) : List Val :=
  (if vs.length = 3 then [vs.getD 0 .undef, vs.getD 1 .undef, vs.getD 2 .undef] else [])
  ++ (if vs.length = 4 then
        [vs.getD 0 .undef, vs.getD 1 .undef, vs.getD 2 .undef,
         vs.getD 2 .undef, vs.getD 3 .undef, vs.getD 0 .undef]
      else [])

/-- ASCII vertex record of PLYLoader.js: one token per property (a list
property's type string is not an integer type, so it consumes a single token
through parseFloat), assigned by property name. -/
def asciiVertexRec (toks : List (List Nat)) : List PropSpec → VAssign → Nat → VAssign × Nat
  | [], a, idx => (a, idx)
  | p :: rest, a, idx =>
    let v := readAsciiTok p.jsType (toks.get? idx)
    asciiVertexRec toks rest (assign a p.pname v) (idx + 1)

/-- Read n face indices as parseInt of successive tokens. -/
def asciiInts (toks : List (List Nat)) : Nat → Nat → List Val × Nat
  | 0, idx => ([], idx)
  | k + 1, idx =>
    let v := (match toks.get? idx with | some t => parseIntB t | none => .nan)
    let r := asciiInts toks k (idx + 1)
    (v :: r.1, r.2)

/-- ASCII element loop of PLYLoader.js for a vertex element. -/
def asciiVertexLoop (toks : List (List Nat)) (props : List PropSpec) :
    Nat → Mesh × Nat → Mesh × Nat
  | 0, st => st
  | n + 1, st =>
    let ar := asciiVertexRec toks props {} st.2
    asciiVertexLoop toks props n (pushVertex st.1 ar.1, ar.2)

/-- ASCII element loop of PLYLoader.js for a face element: a length token
through parseInt, then that many index tokens. -/
def asciiFaceLoop (toks : List (List Nat)) : Nat → Mesh × Nat → Mesh × Nat
  | 0, st => st
  | n + 1, st =>
    let lenv := (match toks.get? st.2 with | some t => parseIntB t | none => .nan)
    let vr := asciiInts toks (listIters lenv (toks.length + 1)) (st.2 + 1)
    asciiFaceLoop toks n
      ({ st.1 with indices := st.1.indices ++ faceIndices vr.1 }, vr.2)

/-- PLYLoader.js parseASCII on the flat token sequence: only vertex and face
elements consume tokens; any other element's loop body is empty. -/
def parseASCII (h : Header) (toks : List (List Nat)) : Mesh :=
  (h.elements.foldl
    (fun st e =>
      if e.name = oVertex then asciiVertexLoop toks e.properties (iterCount e.count) st
      else if e.name = oFace then asciiFaceLoop toks (iterCount e.count) st
      else st)
    (({} : Mesh), 0)).1

/-- Binary vertex record of PLYLoader.js: a list property throws, a scalar
property reads one value and advances the cursor by its width. -/
def binVertexRec (dv : DataView) (little : Bool) :
    List PropSpec → VAssign → Nat → Except JsErr (VAssign × Nat)
  | [], a, o => .ok (a, o)
  | .list _ _ _ :: _, _, _ => .error (.thrown vertexListMsg)
  | .scalar t n :: rest, a, o =>
    match typeDecodeO t with
    | none => .error .typeErr
    | some sd => do
      let v ← dvRead dv little t o
      binVertexRec dv little rest (assign a n v) (o + sd.1)

/-- Read n list items of the given type, advancing the cursor. -/
def readItems (dv : DataView) (little : Bool) (t : Option String) :
    Nat → Nat → Except JsErr (List Val × Nat)
  | 0, o => .ok ([], o)
  | k + 1, o =>
    match typeDecodeO t with
    | none => .error .typeErr
    | some sd => do
      let v ← dvRead dv little t o
      let r ← readItems dv little t k (o + sd.1)
      .ok (v :: r.1, r.2)

/-- Binary face record of PLYLoader.js: only the first property is read, and
it is used through its countReader and itemReader fields, so a missing or
scalar first property dereferences undefined and throws. -/
def binFaceRec (dv : DataView) (little : Bool) (props : List PropSpec) (o : Nat) :
    Except JsErr (List Val × Nat) :=
  match props.head? with
  | none => .error .typeErr
  | some (.scalar _ _) => .error .typeErr
  | some (.list ct it _) =>
    match typeDecodeO ct with
    | none => .error .typeErr
    | some sd => do
      let cnt ← dvRead dv little ct o
      readItems dv little it (listIters cnt (dv.buffer.length + 1)) (o + sd.1)

/-- One binary vertex record followed by the mesh append. -/
def binVertexStep (dv : DataView) (little : Bool) (props : List PropSpec)
    (st : Mesh × Nat) : Except JsErr (Mesh × Nat) := do
  let ar ← binVertexRec dv little props {} st.2
  .ok (pushVertex st.1 ar.1, ar.2)

/-- One binary face record followed by the index append. -/
def binFaceStep (dv : DataView) (little : Bool) (props : List PropSpec)
    (st : Mesh × Nat) : Except JsErr (Mesh × Nat) := do
  let vr ← binFaceRec dv little props st.2
  .ok ({ st.1 with indices := st.1.indices ++ faceIndices vr.1 }, vr.2)

/-- Binary element step of PLYLoader.js: vertex and face records are decoded;
an element with any other name runs an empty loop body, consuming no bytes. -/
def binElem (dv : DataView) (little : Bool) (e : PElem) (st : Mesh × Nat) :
    Except JsErr (Mesh × Nat) :=
  if e.name = oVertex then
    iterE (binVertexStep dv little e.properties) (iterCount e.count) st
  else if e.name = oFace then
    iterE (binFaceStep dv little e.properties) (iterCount e.count) st
  else .ok st

/-- PLYLoader.js parseBinary: a DataView based at headerLength (whose
construction throws when the offset exceeds the buffer) and a single
cumulative cursor starting at 0, threaded through all elements. -/
def parseBinary (bytes : List Nat) (h : Header) : Except JsErr Mesh := do
  if bytes.length < h.headerLength then .error .rangeErr
  else
    let little := decide (h.format = oBinLE)
    let st ← foldE (binElem ⟨bytes, h.headerLength⟩ little) h.elements (({} : Mesh), 0)
    .ok st.1

/-- PLYLoader.js parse: extract the header, parse it, then dispatch on the
format; the ASCII body is the whitespace-token sequence of the text between
the first terminator occurrence and the next one or the end. -/
def parse (bytes : List Nat) : Except JsErr Mesh :=
  match extractHeader bytes with
  | none => .error (.thrown headerNotFoundMsg)
  | some lr => do
    let h ← parseHeader (joinNL lr.1) lr.2
    if h.format = oAscii then
      match bodyChunk bytes with
      | none => .error .typeErr
      | some c => .ok (parseASCII h (splitWsJs (trimB c)))
    else parseBinary bytes h

end PJ

/-- Header byte scanner shared verbatim by part_000 extractHeaderText and
part_001 extractHeaderText (their loop bodies are identical: non-empty lines
are pushed untrimmed, and the scan stops once a completed line equals the
terminator token, pushing that line as well): inl with lines and the byte
index just past the line terminator on success, inr with the final state when
the input runs out. -/
def scanNE : List Nat → List Nat → List (List Nat) → Nat →
    Sum (List (List Nat) × Nat) (List Nat × List (List Nat) × Nat)
  | [], line, lines, idx => .inr (line, lines, idx)
  | b :: rest, line, lines, idx =>
    if b = 10 ∨ b = 13 then
      if line = endHeaderBytes then .inl (lines ++ [line], idx + 1)
      else if line.isEmpty then scanNE rest [] lines (idx + 1)
      else scanNE rest [] (lines ++ [line]) (idx + 1)
    else scanNE rest (line ++ [b]) lines (idx + 1)

/-- Shared color normalization of part_000 normalizeColor and both part_001
variants: null/undefined becomes 0, a value greater than 1 is divided by 255,
anything else passes through (so NaN stays NaN).  An array value (a list
property routed to a color slot) would be compared via JS string coercion;
that corner is modelled as NaN and never exercised. -/
def normalizeColorJs : RVal → Val
  | .v .undef => .num 0
  | .v x => if valGt x 1 then valDivN x 255 else x
  | .arr _ => .nan

/-- First property name of props matching one of the candidate role names, as
the find over names used by every mapAttrs variant; null (none) when no
candidate matches. -/
def findName (props : List PropSpec) (cands : List String) : Option String :=
  cands.find? (fun n => props.any (fun p => p.pname = some n))

/-- Seven-channel model buffer of the part_001 variants (createBuffer);
custom property channels are omitted because the configuration tables are
empty by default and never populated here. -/
structure Buf where
  indices : List Val := []
  vertices : List RVal := []
  normals : List RVal := []
  uvs : List RVal := []
  faceVertexUvs : List RVal := []
  colors : List Val := []
  faceVertexColors : List Val := []
deriving DecidableEq, Repr

namespace P0

/-- part_000 extractHeaderText: always returns lines and headerLength, found
or not (no failure path exists in the source). -/
def extractHeaderText (bytes : List Nat) : List (List Nat) × Nat :=
  match scanNE bytes [] [] 0 with
  | .inl r => r
  | .inr st => (st.2.1, st.2.2)

/-- part_000 normalizeColor. -/
def normalizeColor : RVal → Val := normalizeColorJs

/-- Five-channel model buffer of part_000 createBuffer. -/
structure Buf0 where
  indices : List Val := []
  vertices : List RVal := []
  normals : List RVal := []
  uvs : List RVal := []
  colors : List Val := []
deriving DecidableEq, Repr

/-- Resolved attribute names of part_000 mapAttrs (exact names only, null on
a miss). -/
structure Attrs0 where
  x : Option String
  y : Option String
  z : Option String
  r : Option String
  g : Option String
  b : Option String
deriving DecidableEq, Repr

/-- part_000 mapAttrs. -/
def mapAttrs (props : List PropSpec) : Attrs0 :=
  { x := findName props [r"x"],
    y := findName props [r"y"],
    z := findName props [r"z"],
    r := findName props [r"red"],
    g := findName props [r"green"],
    b := findName props [r"blue"] }

/-- part_000 triangle emission: length 3 verbatim, length 4 as the fan
(a,b,c),(c,d,a). -/
def faceIndices (v : List Val) : List Val :=
  if v.length = 3 then [v.getD 0 .undef, v.getD 1 .undef, v.getD 2 .undef]
  else if v.length = 4 then
    [v.getD 0 .undef, v.getD 1 .undef, v.getD 2 .undef,
     v.getD 2 .undef, v.getD 3 .undef, v.getD 0 .undef]
  else []

/-- part_000 handleElement: vertex records push positions (reads through a
null attribute slot coerce to the key null and yield undefined) and colors
when all three color names resolved; face records read e.vertex_indices,
throwing when it is undefined, and silently emit nothing when it is a
number (numbers have no length). -/
def handleElement (buf : Buf0) (elemName : Option String) (e : Record) (m : Attrs0) :
    Except JsErr Buf0 :=
  if elemName = oVertex then
    let b1 := { buf with
      vertices := buf.vertices ++
        [getR e (lookKey m.x), getR e (lookKey m.y), getR e (lookKey m.z)] }
    .ok (if truthyS m.r && truthyS m.g && truthyS m.b then
      { b1 with colors := b1.colors ++
          [normalizeColor (getR e (lookKey m.r)),
           normalizeColor (getR e (lookKey m.g)),
           normalizeColor (getR e (lookKey m.b))] }
    else b1)
  else if elemName = oFace then
    match lookupR e sVertexIndices with
    | none => .error .typeErr
    | some (.v .undef) => .error .typeErr
    | some (.v _) => .ok buf
    | some (.arr v) => .ok { buf with indices := buf.indices ++ faceIndices v }
  else .ok buf

/-- Read n binary list items at cursor offsets relative to the view base. -/
def readItems (dv : DataView) (little : Bool) (t : Option String) :
    Nat → Nat → Except JsErr (List Val × Nat)
  | 0, o => .ok ([], o)
  | k + 1, o =>
    match typeDecodeO t with
    | none => .error .typeErr
    | some sd => do
      let v ← dvRead dv little t o
      let r ← readItems dv little t k (o + sd.1)
      .ok (v :: r.1, r.2)

/-- Binary record loop of part_000 parseBinary: every property of every
element is decoded in declared order, scalars advancing the cursor by their
width and lists by the count width plus length times item width. -/
def binRecord (dv : DataView) (little : Bool) :
    List PropSpec → Record → Nat → Except JsErr (Record × Nat)
  | [], e, o => .ok (e, o)
  | .scalar t n :: rest, e, o =>
    match typeDecodeO t with
    | none => .error .typeErr
    | some sd => do
      let v ← dvRead dv little t o
      binRecord dv little rest (setR e (keyOf n) (.v v)) (o + sd.1)
  | .list ct it n :: rest, e, o =>
    match typeDecodeO ct with
    | none => .error .typeErr
    | some sd => do
      let cnt ← dvRead dv little ct o
      let ir ← readItems dv little it (listIters cnt (dv.buffer.length + 1)) (o + sd.1)
      binRecord dv little rest (setR e (keyOf n) (.arr ir.1)) ir.2

/-- Binary per-element step of part_000: decode count records and hand each
to handleElement. -/
def binElem (dv : DataView) (little : Bool) (e : PElem) (st : Buf0 × Nat) :
    Except JsErr (Buf0 × Nat) :=
  let m := mapAttrs e.properties
  iterE
    (fun st2 => do
      let rr ← binRecord dv little e.properties [] st2.2
      let b ← handleElement st2.1 e.name rr.1 m
      .ok (b, rr.2))
    (iterCount e.count) st

/-- part_000 parseBinary: DataView based at headerLength, one cumulative
cursor across all elements. -/
def parseBinary (bytes : List Nat) (h : Header) : Except JsErr Buf0 := do
  if bytes.length < h.headerLength then .error .rangeErr
  else
    let little := decide (h.format = oBinLE)
    let st ← foldE (binElem ⟨bytes, h.headerLength⟩ little) h.elements (({} : Buf0), 0)
    .ok st.1

end P0

namespace P1

/-- part_001 (first variant) extractHeaderText: same scanner, headerText
gains a trailing newline; never fails. -/
def extractHeaderText (bytes : List Nat) : List (List Nat) × Nat :=
  match scanNE bytes [] [] 0 with
  | .inl r => r
  | .inr st => (st.2.1, st.2.2)

/-- Resolved attribute names of part_001 mapAttributes: position slots fall
back to the literal names x, y, z when no alias matches (the or-else in the
source; a matched name is a non-empty token, so JS truthiness of the found
name coincides with option matching). -/
structure Attrs1 where
  x : String
  y : String
  z : String
  nx : Option String
  ny : Option String
  nz : Option String
  s : Option String
  t : Option String
  r : Option String
  g : Option String
  b : Option String
deriving DecidableEq, Repr

/-- part_001 mapAttributes. -/
def mapAttributes (props : List PropSpec) : Attrs1 :=
  { x := (findName props [r"x", r"px", r"posx"]).getD (r"x"),
    y := (findName props [r"y", r"py", r"posy"]).getD (r"y"),
    z := (findName props [r"z", r"pz", r"posz"]).getD (r"z"),
    nx := findName props [r"nx", r"normalx"],
    ny := findName props [r"ny", r"normaly"],
    nz := findName props [r"nz", r"normalz"],
    s := findName props [r"s", r"u", r"tex_u"],
    t := findName props [r"t", r"v", r"tex_v"],
    r := findName props [r"red", r"diffuse_red", r"r"],
    g := findName props [r"green", r"diffuse_green", r"g"],
    b := findName props [r"blue", r"diffuse_blue", r"b"] }

/-- part_001 (first variant) handleElement: vertex records only — positions
always, then normals, uvs and normalized colors when their whole alias group
resolved; face elements are decoded upstream but emit nothing here. -/
def handleElement (buf : Buf) (name : Option String) (e : Record) (m : Attrs1) : Buf :=
  if name = oVertex then
    let b1 := { buf with vertices := buf.vertices ++ [getR e m.x, getR e m.y, getR e m.z] }
    let b2 :=
      if truthyS m.nx && truthyS m.ny && truthyS m.nz then
        { b1 with normals := b1.normals ++
            [getR e (lookKey m.nx), getR e (lookKey m.ny), getR e (lookKey m.nz)] }
      else b1
    let b3 :=
      if truthyS m.s && truthyS m.t then
        { b2 with uvs := b2.uvs ++ [getR e (lookKey m.s), getR e (lookKey m.t)] }
      else b2
    if truthyS m.r && truthyS m.g && truthyS m.b then
      { b3 with colors := b3.colors ++
          [normalizeColorJs (getR e (lookKey m.r)),
           normalizeColorJs (getR e (lookKey m.g)),
           normalizeColorJs (getR e (lookKey m.b))] }
    else b3
  else buf

/-- Read n binary list items; every access is issued at headerLength + cursor
relative to the already based view. -/
def readItems (dv : DataView) (hl : Nat) (little : Bool) (t : Option String) :
    Nat → Nat → Except JsErr (List Val × Nat)
  | 0, o => .ok ([], o)
  | k + 1, o =>
    match typeDecodeO t with
    | none => .error .typeErr
    | some sd => do
      let v ← dvRead dv little t (hl + o)
      let r ← readItems dv hl little t k (o + sd.1)
      .ok (v :: r.1, r.2)

/-- Binary record loop of part_001 parseBinary: like part_000, except that
every read happens at header.headerLength + offset inside a DataView that is
itself already based at headerLength. -/
def binRecord (dv : DataView) (hl : Nat) (little : Bool) :
    List PropSpec → Record → Nat → Except JsErr (Record × Nat)
  | [], e, o => .ok (e, o)
  | .scalar t n :: rest, e, o =>
    match typeDecodeO t with
    | none => .error .typeErr
    | some sd => do
      let v ← dvRead dv little t (hl + o)
      binRecord dv hl little rest (setR e (keyOf n) (.v v)) (o + sd.1)
  | .list ct it n :: rest, e, o =>
    match typeDecodeO ct with
    | none => .error .typeErr
    | some sd => do
      let cnt ← dvRead dv little ct (hl + o)
      let ir ← readItems dv hl little it (listIters cnt (dv.buffer.length + 1)) (o + sd.1)
      binRecord dv hl little rest (setR e (keyOf n) (.arr ir.1)) ir.2

/-- Binary per-element step of part_001 (first variant). -/
def binElem (dv : DataView) (hl : Nat) (little : Bool) (e : PElem) (st : Buf × Nat) :
    Except JsErr (Buf × Nat) :=
  let m := mapAttributes e.properties
  iterE
    (fun st2 => do
      let rr ← binRecord dv hl little e.properties [] st2.2
      .ok (handleElement st2.1 e.name rr.1 m, rr.2))
    (iterCount e.count) st

/-- part_001 (first variant) parseBinary: DataView based at headerLength AND
reads issued at headerLength + offset, so record bytes come from file
position 2 × headerLength + offset. -/
def parseBinary (bytes : List Nat) (h : Header) : Except JsErr Buf := do
  if bytes.length < h.headerLength then .error .rangeErr
  else
    let little := decide (h.format = oBinLE)
    let st ← foldE (binElem ⟨bytes, h.headerLength⟩ h.headerLength little) h.elements
      (({} : Buf), 0)
    .ok st.1

end P1

namespace PD

/-- Resolved attribute names of the second part_001 variant
(mapElementAttributes), with its slightly longer uv and color alias lists. -/
structure AttrsD where
  attrX : String
  attrY : String
  attrZ : String
  attrNX : Option String
  attrNY : Option String
  attrNZ : Option String
  attrS : Option String
  attrT : Option String
  attrR : Option String
  attrG : Option String
  attrB : Option String
deriving DecidableEq, Repr

/-- part_001 (second variant) mapElementAttributes. -/
def mapElementAttributes (props : List PropSpec) : AttrsD :=
  { attrX := (findName props [r"x", r"px", r"posx"]).getD (r"x"),
    attrY := (findName props [r"y", r"py", r"posy"]).getD (r"y"),
    attrZ := (findName props [r"z", r"pz", r"posz"]).getD (r"z"),
    attrNX := findName props [r"nx", r"normalx"],
    attrNY := findName props [r"ny", r"normaly"],
    attrNZ := findName props [r"nz", r"normalz"],
    attrS := findName props [r"s", r"u", r"texture_u", r"tx"],
    attrT := findName props [r"t", r"v", r"texture_v", r"ty"],
    attrR := findName props [r"red", r"diffuse_red", r"r", r"diffuse_r"],
    attrG := findName props [r"green", r"diffuse_green", r"g", r"diffuse_g"],
    attrB := findName props [r"blue", r"diffuse_blue", r"b", r"diffuse_b"] }

/-- Triangle emission of the second part_001 variant: length 3 verbatim,
length 4 as the fan (a,b,d),(b,c,d). -/
def faceIndices (vi : List Val) : List Val :=
  if vi.length = 3 then [vi.getD 0 .undef, vi.getD 1 .undef, vi.getD 2 .undef]
  else if vi.length = 4 then
    [vi.getD 0 .undef, vi.getD 1 .undef, vi.getD 3 .undef,
     vi.getD 1 .undef, vi.getD 2 .undef, vi.getD 3 .undef]
  else []

/-- JS or-else of element.vertex_indices and element.vertex_index: the first
operand when truthy (arrays always are, numbers when non-zero), otherwise the
second lookup; none models undefined. -/
def viLookup (e : Record) : Option RVal :=
  match lookupR e sVertexIndices with
  | some (.arr xs) => some (.arr xs)
  | some (.v x) => if truthyV x then some (.v x) else lookupR e sVertexIndex
  | none => lookupR e sVertexIndex

/-- part_001 (second variant) handleElement: the vertex branch matches the
first variant; the face branch emits its own fan decomposition and constant
per-corner face colors when the color aliases resolve; vi.length on
undefined throws. -/
def handleElement (buf : Buf) (elementName : Option String) (e : Record) (m : AttrsD) :
    Except JsErr Buf :=
  if elementName = oVertex then
    let b1 := { buf with vertices := buf.vertices ++
      [getR e m.attrX, getR e m.attrY, getR e m.attrZ] }
    let b2 :=
      if truthyS m.attrNX && truthyS m.attrNY && truthyS m.attrNZ then
        { b1 with normals := b1.normals ++
            [getR e (lookKey m.attrNX), getR e (lookKey m.attrNY), getR e (lookKey m.attrNZ)] }
      else b1
    let b3 :=
      if truthyS m.attrS && truthyS m.attrT then
        { b2 with uvs := b2.uvs ++ [getR e (lookKey m.attrS), getR e (lookKey m.attrT)] }
      else b2
    .ok (if truthyS m.attrR && truthyS m.attrG && truthyS m.attrB then
      { b3 with colors := b3.colors ++
          [normalizeColorJs (getR e (lookKey m.attrR)),
           normalizeColorJs (getR e (lookKey m.attrG)),
           normalizeColorJs (getR e (lookKey m.attrB))] }
    else b3)
  else if elementName = oFace then
    match viLookup e with
    | none => .error .typeErr
    | some (.v .undef) => .error .typeErr
    | some (.v _) =>
      .ok (pushFaceColors buf e m)
    | some (.arr vi) =>
      .ok (pushFaceColors { buf with indices := buf.indices ++ faceIndices vi } e m)
  else .ok buf
where
  /-- Face color block shared by the face cases. -/
  pushFaceColors (buf : Buf) (e : Record) (m : AttrsD) : Buf :=
    if truthyS m.attrR && truthyS m.attrG && truthyS m.attrB then
      let cr := normalizeColorJs (getR e (lookKey m.attrR))
      let cg := normalizeColorJs (getR e (lookKey m.attrG))
      let cb := normalizeColorJs (getR e (lookKey m.attrB))
      { buf with faceVertexColors := buf.faceVertexColors ++ [cr, cg, cb, cr, cg, cb, cr, cg, cb] }
    else buf

end PD

/-! Definitions used only to state the theorems below: the spec-side
predicate for the header-failure claim, schemas and inputs for concrete
evaluations. -/

/-- Spec-side predicate (from the claim wording): a property line appears
before any element line, skipping blank lines, using the same trimming and
tokenisation as the parser. -/
def propertyBeforeElement : List (List Nat) → Bool
  | [] => false
  | l :: rest =>
    let t := trimB l
    if t.isEmpty then propertyBeforeElement rest
    else
      match splitTokens t with
      | [] => propertyBeforeElement rest
      | k :: _ =>
        if strOf k = "property" then true
        else if strOf k = "element" then false
        else propertyBeforeElement rest

/-- Type-name string constant. -/
def sUchar : String := "uchar"

/-- Binary schema with one unknown element (one uchar scalar) followed by a
one-record vertex element with a single uchar property named x. -/
def ghostHdr : Header :=
  { format := oBinLE, headerLength := 0,
    elements :=
      [ { name := some (r"ghost"), count := .num 1,
          properties := [.scalar (some (r"uchar")) (some (r"a"))] },
        { name := oVertex, count := .num 1,
          properties := [.scalar (some (r"uchar")) oX] } ] }

/-- Two-byte payload for the unknown-element schema. -/
def c1Payload : List Nat := [7, 9]

/-- ASCII schema with one vertex carrying float x and float colors. -/
def c2Hdr : Header :=
  { format := oAscii,
    elements :=
      [ { name := oVertex, count := .num 1,
          properties :=
            [.scalar (some (r"float")) oX, .scalar (some (r"float")) oRed,
             .scalar (some (r"float")) oGreen, .scalar (some (r"float")) oBlue] } ] }

/-- Tokens 0 0.5 0.5 0.5 for the color schema. -/
def c2Toks : List (List Nat) :=
  [bytesOf (r"0"), bytesOf c2Half, bytesOf c2Half, bytesOf c2Half]
where
  /-- Token text 0.5. -/
  c2Half : String := "0.5"

/-- ASCII schema with a single face element whose only property is the usual
uchar-counted int list vertex_indices. -/
def c3Hdr : Header :=
  { format := oAscii,
    elements :=
      [ { name := oFace, count := .num 1,
          properties :=
            [.list (some (r"uchar")) (some (r"int")) (some sVertexIndices)] } ] }

/-- Tokens 4 0 1 2 3: one quad face record. -/
def c3Toks : List (List Nat) :=
  [bytesOf (r"4"), bytesOf (r"0"), bytesOf (r"1"), bytesOf (r"2"), bytesOf (r"3")]

/-- Face record whose vertex_indices is the array [0,1,2,3]. -/
def c3FaceRec : Record :=
  [(sVertexIndices, .arr [.num 0, .num 1, .num 2, .num 3])]

/-- Properties of the face element, for attribute mapping. -/
def c3Props : List PropSpec :=
  [.list (some (r"uchar")) (some (r"int")) (some sVertexIndices)]

/-- Input with terminator but no trailing line break. -/
def noNlFile : String := "ply\nend_header"

/-- Input whose terminator line break is followed by one payload byte. -/
def nlXFile : String := "ply\nend_header\nX"

/-- First header line used to instantiate the scan-state hypotheses. -/
def plyLine : String := "ply\n"

/-- Binary schema of a single vertex element with n records of one scalar
property of type t named x. -/
def scalarVertexHdr (t : String) (n : Nat) : Header :=
  { format := oBinLE, headerLength := 0,
    elements :=
      [ { name := oVertex, count := .num n, properties := [.scalar (some t) oX] } ] }

/-- ASCII schema of one vertex record with float x, y, z. -/
def asciiXYZHdr : Header :=
  { format := oAscii,
    elements :=
      [ { name := oVertex, count := .num 1,
          properties :=
            [.scalar (some (r"float")) oX, .scalar (some (r"float")) oY,
             .scalar (some (r"float")) oZ] } ] }

/-- Header text whose element count token is not a number. -/
def hdrBadCount : String := "element vertex abc"

/-- Header text whose property line lacks the name token. -/
def hdrShortProp : String := "element v 1\nproperty float"

/-- Header text that starts with a property line. -/
def hdrPropFirst : String := "property float x"

/-- Header text with an element before its property, for the success side. -/
def hdrGood : String := "element vertex 1\nproperty float x"

/-- Property names that the PLYLoader.js vertex branch assigns to slots. -/
def pjRoleNames : List String := [r"x", r"y", r"z", r"red", r"green", r"blue"]

/-- All alias names recognised by part_001 mapAttributes. -/
def p1AliasNames : List String :=
  [r"x", r"px", r"posx", r"y", r"py", r"posy", r"z", r"pz", r"posz",
   r"nx", r"normalx", r"ny", r"normaly", r"nz", r"normalz",
   r"s", r"u", r"tex_u", r"t", r"v", r"tex_v",
   r"red", r"diffuse_red", r"r", r"green", r"diffuse_green", r"g",
   r"blue", r"diffuse_blue", r"b"]

/-- ASCII schema of one vertex record with a single float property of the
given name. -/
def c8Hdr (pname : String) : Header :=
  { format := oAscii,
    elements :=
      [ { name := oVertex, count := .num 1,
          properties := [.scalar (some (r"float")) (some pname)] } ] }

/-- Non-role property name used as a witness input. -/
def fooName : String := "foo"

/-- Complete ASCII file whose vertex element has no position-role property. -/
def fileC8 : String :=
  "ply\nformat ascii 1.0\nelement vertex 1\nproperty float foo\nend_header\n7\n"

/-- Binary schema of one vertex record with one uchar x, with the given
headerLength, for the part_001 double-offset claim. -/
def c9Hdr (hl : Nat) : Header :=
  { format := oBinLE, headerLength := hl,
    elements :=
      [ { name := oVertex, count := .num 1, properties := [.scalar (some (r"uchar")) oX] } ] }

/-- Binary schema of one vertex record declaring a list property. -/
def c10Hdr : Header :=
  { format := oBinLE, headerLength := 0,
    elements :=
      [ { name := oVertex, count := .num 1,
          properties :=
            [.list (some (r"uchar")) (some (r"int")) (some sVertexIndices)] } ] }

/-- Complete ASCII file whose vertex element declares a list property. -/
def fileC10 : String :=
  "ply\nformat ascii 1.0\nelement vertex 1\nproperty float x\nproperty list uchar int vertex_indices\nend_header\n1 2\n"

/-! Helper lemmas about contiguous runs and the header scanners. -/

theorem nil_isPrefixOf (l : List Nat) : List.isPrefixOf [] l = true := by
  cases l <;> rfl

theorem isPrefixOf_self_append (p t : List Nat) : p.isPrefixOf (p ++ t) = true := by
  induction p with
  | nil => exact nil_isPrefixOf _
  | cons a rest ih => simp [ List.isPrefixOf, ih]

theorem isPrefixOf_append_weaken (p l t : List Nat) (h : p.isPrefixOf l = true) :
    p.isPrefixOf (l ++ t) = true := by
  induction p generalizing l with
  | nil => exact nil_isPrefixOf _
  | cons a rest ih =>
    cases l with
    | nil => simp [ List.isPrefixOf] at h
    | cons b bs =>
      simp only [List.cons_append]
      simp only [ List.isPrefixOf, Bool.and_eq_true, beq_iff_eq] at h ⊢
      exact ⟨h.1, ih bs h.2⟩

theorem hasRun_of_pref (p l : List Nat) (h : p.isPrefixOf l = true) : hasRun p l = true := by
  cases l with
  | nil =>
    cases p with
    | nil => rfl
    | cons a as => simp [ List.isPrefixOf] at h
  | cons b bs => simp [hasRun, firstOcc, h]

theorem hasRun_cons (p : List Nat) (b : Nat) (rest : List Nat)
    (h : hasRun p rest = true) : hasRun p (b :: rest) = true := by
  simp only [hasRun, firstOcc]
  by_cases hp : p.isPrefixOf (b :: rest) = true
  · simp [hp]
  · simp only [hp, if_neg, Bool.false_eq_true, Option.isSome_map]
    simpa [hasRun] using h

theorem hasRun_append_left (p s t : List Nat) (h : hasRun p t = true) :
    hasRun p (s ++ t) = true := by
  induction s with
  | nil => simpa using h
  | cons b bs ih => exact hasRun_cons _ _ _ ih

theorem isPrefixOf_self (p : List Nat) : p.isPrefixOf p = true := by
  have h := isPrefixOf_self_append p []
  rwa [List.append_nil] at h

theorem hasRun_append_right (p l t : List Nat) (h : hasRun p l = true) :
    hasRun p (l ++ t) = true := by
  induction l with
  | nil =>
    cases p with
    | nil => exact hasRun_of_pref _ _ (by cases t <;> rfl)
    | cons a as => simp [hasRun, firstOcc] at h
  | cons b bs ih =>
    simp only [hasRun, firstOcc] at h
    simp only [List.cons_append, hasRun, firstOcc, List.append_eq]
    by_cases hq : p.isPrefixOf (b :: (bs ++ t)) = true
    · rw [if_pos hq]; rfl
    · rw [if_neg hq]
      by_cases hp : p.isPrefixOf (b :: bs) = true
      · exact absurd (by simpa using isPrefixOf_append_weaken p (b :: bs) t hp) hq
      · rw [if_neg hp] at h
        cases hfo : firstOcc p bs with
        | none => rw [hfo] at h; simp at h
        | some i =>
          have : hasRun p bs = true := by simp [hasRun, hfo]
          have h2 := ih this
          simp only [hasRun] at h2
          cases hfo2 : firstOcc p (bs ++ t) with
          | none => rw [hfo2] at h2; simp at h2
          | some j => rfl

theorem trimB_run (l : List Nat) : hasRun (trimB l) l = true := by
  have hsplit : l.takeWhile isWS ++ l.dropWhile isWS = l :=
    List.takeWhile_append_dropWhile _ _
  have hm : l.dropWhile isWS =
      trimB l ++ ((l.dropWhile isWS).reverse.takeWhile isWS).reverse := by
    have h2 : (l.dropWhile isWS).reverse.takeWhile isWS ++
        (l.dropWhile isWS).reverse.dropWhile isWS = (l.dropWhile isWS).reverse :=
      List.takeWhile_append_dropWhile _ _
    calc l.dropWhile isWS = (l.dropWhile isWS).reverse.reverse := (List.reverse_reverse _).symm
      _ = ((l.dropWhile isWS).reverse.takeWhile isWS ++
            (l.dropWhile isWS).reverse.dropWhile isWS).reverse := by rw [h2]
      _ = trimB l ++ ((l.dropWhile isWS).reverse.takeWhile isWS).reverse := by
            rw [List.reverse_append]; rfl
  have hrun : hasRun (trimB l) (l.dropWhile isWS) = true := by
    rw [hm]
    exact hasRun_of_pref _ _ (isPrefixOf_self_append _ _)
  calc hasRun (trimB l) l
      = hasRun (trimB l) (l.takeWhile isWS ++ l.dropWhile isWS) := by rw [hsplit]
    _ = true := hasRun_append_left _ _ _ hrun

theorem pjScan_found_run (bytes : List Nat) :
    ∀ line lines idx r, PJ.scan bytes line lines idx = .inl r →
      hasRun endHeaderBytes (line ++ bytes) = true := by
  induction bytes with
  | nil => intro line lines idx r h; simp [PJ.scan] at h
  | cons b rest ih =>
    intro line lines idx r h
    simp only [PJ.scan] at h
    by_cases hb : b = 10 ∨ b = 13
    · rw [if_pos hb] at h
      by_cases ht : trimB line = endHeaderBytes
      · have h1 : hasRun endHeaderBytes line = true := ht ▸ trimB_run line
        exact hasRun_append_right _ _ _ h1
      · rw [if_neg ht] at h
        have h2 := ih [] _ _ r h
        have h3 : hasRun endHeaderBytes rest = true := by simpa using h2
        have h4 := hasRun_append_left endHeaderBytes (line ++ [b]) rest h3
        simpa using h4
    · rw [if_neg hb] at h
      have h2 := ih (line ++ [b]) _ _ r h
      simpa using h2

theorem scanNE_found_run (bytes : List Nat) :
    ∀ line lines idx r, scanNE bytes line lines idx = .inl r →
      hasRun endHeaderBytes (line ++ bytes) = true := by
  induction bytes with
  | nil => intro line lines idx r h; simp [scanNE] at h
  | cons b rest ih =>
    intro line lines idx r h
    simp only [scanNE] at h
    by_cases hb : b = 10 ∨ b = 13
    · rw [if_pos hb] at h
      by_cases ht : line = endHeaderBytes
      · have h1 : hasRun endHeaderBytes line = true := by
          rw [ht]; exact hasRun_of_pref _ _ (isPrefixOf_self _)
        exact hasRun_append_right _ _ _ h1
      · rw [if_neg ht] at h
        by_cases he : line.isEmpty = true
        · rw [if_pos he] at h
          have h3 : hasRun endHeaderBytes rest = true := by simpa using ih [] _ _ r h
          have h4 := hasRun_append_left endHeaderBytes (line ++ [b]) rest h3
          simpa using h4
        · rw [if_neg he] at h
          have h3 : hasRun endHeaderBytes rest = true := by simpa using ih [] _ _ r h
          have h4 := hasRun_append_left endHeaderBytes (line ++ [b]) rest h3
          simpa using h4
    · rw [if_neg hb] at h
      simpa using ih (line ++ [b]) _ _ r h

theorem scanNE_inr_idx (bytes : List Nat) :
    ∀ line lines idx st, scanNE bytes line lines idx = .inr st →
      st.2.2 = idx + bytes.length := by
  induction bytes with
  | nil =>
    intro line lines idx st h
    simp only [scanNE, Sum.inr.injEq] at h
    rw [← h]
    rfl
  | cons b rest ih =>
    intro line lines idx st h
    simp only [scanNE] at h
    by_cases hb : b = 10 ∨ b = 13
    · rw [if_pos hb] at h
      by_cases ht : line = endHeaderBytes
      · rw [if_pos ht] at h; exact absurd h (by simp)
      · rw [if_neg ht] at h
        by_cases he : line.isEmpty = true
        · rw [if_pos he] at h
          have := ih [] _ _ st h
          simp [this]; omega
        · rw [if_neg he] at h
          have := ih [] _ _ st h
          simp [this]; omega
    · rw [if_neg hb] at h
      have := ih (line ++ [b]) _ _ st h
      simp [this]; omega

theorem pjScan_append_inr (xs ys : List Nat) :
    ∀ line lines idx st, PJ.scan xs line lines idx = .inr st →
      PJ.scan (xs ++ ys) line lines idx = PJ.scan ys st.1 st.2.1 st.2.2 := by
  induction xs with
  | nil =>
    intro line lines idx st h
    simp only [PJ.scan, Sum.inr.injEq] at h
    rw [List.nil_append, ← h]
  | cons b rest ih =>
    intro line lines idx st h
    simp only [PJ.scan] at h
    simp only [List.cons_append, PJ.scan]
    by_cases hb : b = 10 ∨ b = 13
    · rw [if_pos hb] at h ⊢
      by_cases ht : trimB line = endHeaderBytes
      · rw [if_pos ht] at h; exact absurd h (by simp)
      · rw [if_neg ht] at h ⊢; exact ih _ _ _ st h
    · rw [if_neg hb] at h ⊢; exact ih _ _ _ st h

theorem pjScan_append_inl (xs ys : List Nat) :
    ∀ line lines idx r, PJ.scan xs line lines idx = .inl r →
      PJ.scan (xs ++ ys) line lines idx = .inl r := by
  induction xs with
  | nil => intro line lines idx r h; simp [PJ.scan] at h
  | cons b rest ih =>
    intro line lines idx r h
    simp only [PJ.scan] at h
    simp only [List.cons_append, PJ.scan]
    by_cases hb : b = 10 ∨ b = 13
    · rw [if_pos hb] at h ⊢
      by_cases ht : trimB line = endHeaderBytes
      · rw [if_pos ht] at h ⊢; exact h
      · rw [if_neg ht] at h ⊢; exact ih _ _ _ r h
    · rw [if_neg hb] at h ⊢; exact ih _ _ _ r h

theorem scanNE_append_inr (xs ys : List Nat) :
    ∀ line lines idx st, scanNE xs line lines idx = .inr st →
      scanNE (xs ++ ys) line lines idx = scanNE ys st.1 st.2.1 st.2.2 := by
  induction xs with
  | nil =>
    intro line lines idx st h
    simp only [scanNE, Sum.inr.injEq] at h
    rw [List.nil_append, ← h]
  | cons b rest ih =>
    intro line lines idx st h
    simp only [scanNE] at h
    simp only [List.cons_append, scanNE]
    by_cases hb : b = 10 ∨ b = 13
    · rw [if_pos hb] at h ⊢
      by_cases ht : line = endHeaderBytes
      · rw [if_pos ht] at h; exact absurd h (by simp)
      · rw [if_neg ht] at h ⊢
        by_cases he : line.isEmpty = true
        · rw [if_pos he] at h ⊢; exact ih _ _ _ st h
        · rw [if_neg he] at h ⊢; exact ih _ _ _ st h
    · rw [if_neg hb] at h ⊢; exact ih _ _ _ st h

theorem pjScan_endHeader (L : List (List Nat)) (n : Nat) :
    PJ.scan endHeaderBytes [] L n = .inr (endHeaderBytes, L, n + 10) := rfl

theorem pjScan_newline_after (rest : List Nat) (L : List (List Nat)) (n : Nat) :
    PJ.scan (10 :: rest) endHeaderBytes L n = .inl (L ++ [endHeaderBytes], n + 1) := rfl

theorem scanNE_endHeader (L : List (List Nat)) (n : Nat) :
    scanNE endHeaderBytes [] L n = .inr (endHeaderBytes, L, n + 10) := rfl

theorem scanNE_newline_after (rest : List Nat) (L : List (List Nat)) (n : Nat) :
    scanNE (10 :: rest) endHeaderBytes L n = .inl (L ++ [endHeaderBytes], n + 1) := rfl

/-! Claim theorems. -/

/-- C1: on a binary schema whose first element is named ghost (neither vertex
nor face, one uchar property, one record) followed by a one-record vertex
element, PLYLoader.js parseBinary leaves the cursor at 0 across the ghost
element and decodes the vertex x from payload byte 0 (value 7) instead of
byte 1 (value 9), while part_000 parseBinary fully consumes the ghost record
and decodes the vertex x from byte 1 as the claim describes. -/
theorem binary_unknown_element_not_consumed :
    PJ.parseBinary c1Payload ghostHdr =
      .ok { vertices := [.num 7, .undef, .undef], colors := [], indices := [] } ∧
    P0.parseBinary c1Payload ghostHdr =
      .ok { indices := [], vertices := [.v (.num 9), .v .undef, .v .undef],
            normals := [], uvs := [], colors := [] } := by
  constructor <;> rfl

/-- C2: the shared normalizeColor of part_000 and part_001 follows the claim
(255 maps to 1, 1 stays 1, one half stays one half, values above 1 are
divided by 255), but the PLYLoader.js parse paths never call it: on an ASCII
vertex with float colors 0.5 0.5 0.5 they push 0.5/255 = 1/510 per
component instead of 0.5. -/
theorem color_normalization_divided_by_255 :
    P0.normalizeColor (.v (.num 255)) = .num 1 ∧
    P0.normalizeColor (.v (.num 1)) = .num 1 ∧
    P0.normalizeColor (.v (.num (mkRat 1 2))) = .num (mkRat 1 2) ∧
    P0.normalizeColor (.v (.num 200)) = .num (mkRat 200 255) ∧
    PJ.parseASCII c2Hdr c2Toks =
      { vertices := [.num 0, .undef, .undef],
        colors := [.num (mkRat 1 510), .num (mkRat 1 510), .num (mkRat 1 510)],
        indices := [] } := by
  refine ⟨by decide, by decide, by decide, by decide, by decide⟩

/-- C3 counterexample: the handleElement of the second part_001 variant maps
the quad record [0,1,2,3] to the triangles (0,1,3),(1,2,3), not to the
claimed (0,1,2),(2,3,0). -/
theorem quad_fan_divergence_cex :
    PD.handleElement {} oFace c3FaceRec (PD.mapElementAttributes c3Props) =
      .ok { indices := [.num 0, .num 1, .num 3, .num 1, .num 2, .num 3],
            vertices := [], normals := [], uvs := [], faceVertexUvs := [],
            colors := [], faceVertexColors := [] } ∧
    ([Val.num 0, .num 1, .num 3, .num 1, .num 2, .num 3] ≠
      [Val.num 0, .num 1, .num 2, .num 2, .num 3, .num 0]) := by
  constructor
  · rfl
  · decide

/-- C4 counterexample: the bytes of the line ab contain no terminator token,
yet part_000 extractHeaderText returns a header (the line ab with
headerLength 3) instead of failing. -/
theorem header_not_found_cex :
    hasRun endHeaderBytes [97, 98, 10] = false ∧
    P0.extractHeaderText [97, 98, 10] = ([[97, 98]], 3) := by
  constructor
  · decide
  · rfl

/-- C5 counterexample: on an input ending with the terminator and no trailing
newline, PLYLoader.js extractHeader fails instead of returning the
post-terminator index, and on an input with a trailing newline part_001
extractHeaderText returns byte index 15 (one past the newline), not the
post-terminator index 14. -/
theorem payload_offset_cex :
    PJ.extractHeader (bytesOf noNlFile) = none ∧
    (P1.extractHeaderText (bytesOf nlXFile)).2 = 15 ∧
    (P1.extractHeaderText (bytesOf nlXFile)).2 ≠ 14 := by
  refine ⟨by rfl, by rfl, by decide⟩

/-- C7 counterexample: a header whose element count token is not a number
and a header whose property line lacks its name token are both accepted by
PLYLoader.js parseHeader (returning a schema with a NaN count, resp. an
undefined property name) instead of failing with MalformedHeader. -/
theorem malformed_header_cex :
    PJ.parseHeader (bytesOf hdrBadCount) 0 =
      .ok { format := none, version := none, headerLength := 0,
            elements := [{ name := oVertex, count := .nan, properties := [] }] } ∧
    PJ.parseHeader (bytesOf hdrShortProp) 0 =
      .ok { format := none, version := none, headerLength := 0,
            elements := [{ name := some (r"v"), count := .num 1,
                           properties := [.scalar (some (r"float")) none] }] } := by
  constructor <;> rfl

/-- C8 counterexample: a complete ASCII file whose vertex element has only a
property named foo parses to a mesh with three undefined position entries;
no MissingPositionAttribute failure occurs. -/
theorem missing_position_cex :
    PJ.parse (bytesOf fileC8) =
      .ok { vertices := [.undef, .undef, .undef], colors := [], indices := [] } := by
  rfl

/-- C4 amended: on any input in which the terminator token does not occur as
a contiguous byte run, PLYLoader.js extractHeader fails (returns no header)
regardless of buffer length, while part_000 extractHeaderText instead
returns the accumulated lines with headerLength equal to the buffer
length. -/
theorem header_not_found_amended (bytes : List Nat)
    (h : hasRun endHeaderBytes bytes = false) :
    PJ.extractHeader bytes = none ∧
    (P0.extractHeaderText bytes).2 = bytes.length := by
  constructor
  · unfold PJ.extractHeader
    cases hs : PJ.scan bytes [] [] 0 with
    | inl r =>
      have hr := pjScan_found_run bytes [] [] 0 r hs
      simp only [List.nil_append] at hr
      exact absurd hr (by simp [h])
    | inr st => rfl
  · unfold P0.extractHeaderText
    cases hs : scanNE bytes [] [] 0 with
    | inl r =>
      have hr := scanNE_found_run bytes [] [] 0 r hs
      simp only [List.nil_append] at hr
      exact absurd hr (by simp [h])
    | inr st =>
      have := scanNE_inr_idx bytes [] [] 0 st hs
      simpa using this

/-- Witness for the amended header-not-found theorem at the one-byte input
97, which contains no terminator. -/
theorem header_not_found_amended_witness :
    PJ.extractHeader [97] = none ∧ (P0.extractHeaderText [97]).2 = 1 :=
  header_not_found_amended [97] (by decide)

/-- C5 amended: for any prefix the scanners traverse without finding the
terminator and leave at a line boundary, an input continuing with the
terminator and a newline yields payloadOffset one PAST the post-terminator
index (the newline is consumed), in PLYLoader.js and part_001 alike; with
the terminator and no newline PLYLoader.js fails instead, while part_001
returns the buffer length, which equals the exact post-terminator index
only because the input ends there. -/
theorem payload_offset_amended (pre rest : List Nat) (L M : List (List Nat))
    (h1 : PJ.scan pre [] [] 0 = .inr ([], L, pre.length))
    (h2 : scanNE pre [] [] 0 = .inr ([], M, pre.length)) :
    PJ.extractHeader (pre ++ endHeaderBytes) = none ∧
    PJ.extractHeader (pre ++ (endHeaderBytes ++ 10 :: rest)) =
      some (L ++ [endHeaderBytes], pre.length + 11) ∧
    P1.extractHeaderText (pre ++ endHeaderBytes) = (M, pre.length + 10) ∧
    P1.extractHeaderText (pre ++ (endHeaderBytes ++ 10 :: rest)) =
      (M ++ [endHeaderBytes], pre.length + 11) := by
  have e1 : PJ.scan (pre ++ endHeaderBytes) [] [] 0 =
      .inr (endHeaderBytes, L, pre.length + 10) := by
    rw [pjScan_append_inr pre endHeaderBytes [] [] 0 ([], L, pre.length) h1]
    exact pjScan_endHeader L pre.length
  have e2 : PJ.scan (pre ++ (endHeaderBytes ++ 10 :: rest)) [] [] 0 =
      .inl (L ++ [endHeaderBytes], pre.length + 11) := by
    rw [pjScan_append_inr pre (endHeaderBytes ++ 10 :: rest) [] [] 0 ([], L, pre.length) h1]
    rw [pjScan_append_inr endHeaderBytes (10 :: rest) [] L pre.length
      (endHeaderBytes, L, pre.length + 10) (pjScan_endHeader L pre.length)]
    exact pjScan_newline_after rest L (pre.length + 10)
  have e3 : scanNE (pre ++ endHeaderBytes) [] [] 0 =
      .inr (endHeaderBytes, M, pre.length + 10) := by
    rw [scanNE_append_inr pre endHeaderBytes [] [] 0 ([], M, pre.length) h2]
    exact scanNE_endHeader M pre.length
  have e4 : scanNE (pre ++ (endHeaderBytes ++ 10 :: rest)) [] [] 0 =
      .inl (M ++ [endHeaderBytes], pre.length + 11) := by
    rw [scanNE_append_inr pre (endHeaderBytes ++ 10 :: rest) [] [] 0 ([], M, pre.length) h2]
    rw [scanNE_append_inr endHeaderBytes (10 :: rest) [] M pre.length
      (endHeaderBytes, M, pre.length + 10) (scanNE_endHeader M pre.length)]
    exact scanNE_newline_after rest M (pre.length + 10)
  refine ⟨?_, ?_, ?_, ?_⟩
  · unfold PJ.extractHeader; rw [e1]
  · unfold PJ.extractHeader; rw [e2]
  · unfold P1.extractHeaderText; rw [e3]
  · unfold P1.extractHeaderText; rw [e4]

/-- Witness for the amended payload-offset theorem with prefix ply and a
newline: the no-newline continuation fails in PLYLoader.js while part_001
returns offset 14 (the exact post-terminator index, equal to the length). -/
theorem payload_offset_amended_witness :
    PJ.extractHeader (bytesOf plyLine ++ endHeaderBytes) = none ∧
    P1.extractHeaderText (bytesOf plyLine ++ endHeaderBytes) = ([[112, 108, 121]], 14) := by
  have h := payload_offset_amended (bytesOf plyLine) [] [[112, 108, 121]] [[112, 108, 121]]
    (by rfl) (by rfl)
  exact ⟨h.1, h.2.2.1⟩

/-- C3 amended: every variant emits a length-3 list verbatim and nothing
(without error) for lengths other than 3 and 4; a length-4 list [a,b,c,d]
emits (a,b,c),(c,d,a) in PLYLoader.js (both modes, as the full ASCII quad
evaluation shows) and in part_000, but (a,b,d),(b,c,d) in the second
part_001 variant. -/
theorem quad_fan_amended (a b c d : Val) (vs : List Val)
    (h3 : vs.length ≠ 3) (h4 : vs.length ≠ 4) :
    PJ.faceIndices [a, b, c] = [a, b, c] ∧
    PJ.faceIndices [a, b, c, d] = [a, b, c, c, d, a] ∧
    P0.faceIndices [a, b, c, d] = [a, b, c, c, d, a] ∧
    PD.faceIndices [a, b, c, d] = [a, b, d, b, c, d] ∧
    PJ.faceIndices vs = [] ∧ P0.faceIndices vs = [] ∧ PD.faceIndices vs = [] ∧
    PJ.parseASCII c3Hdr c3Toks =
      { vertices := [], colors := [],
        indices := [.num 0, .num 1, .num 2, .num 2, .num 3, .num 0] } := by
  refine ⟨?_, ?_, ?_, ?_, ?_, ?_, ?_, by decide⟩
  · simp [PJ.faceIndices]
  · simp [PJ.faceIndices]
  · simp [P0.faceIndices]
  · simp [PD.faceIndices]
  · simp [PJ.faceIndices, h3, h4]
  · simp [P0.faceIndices, h3, h4]
  · simp [PD.faceIndices, h3, h4]

/-- Witness for the amended quad-fan theorem at concrete indices 0,1,2,3 and
the length-1 list [5]. -/
theorem quad_fan_amended_witness :
    PJ.faceIndices [Val.num 0, .num 1, .num 2, .num 3] =
      [Val.num 0, .num 1, .num 2, .num 2, .num 3, .num 0] ∧
    PD.faceIndices [Val.num 0, .num 1, .num 2, .num 3] =
      [Val.num 0, .num 1, .num 3, .num 1, .num 2, .num 3] ∧
    PJ.faceIndices [Val.num 5] = [] := by
  have h := quad_fan_amended (.num 0) (.num 1) (.num 2) (.num 3) [.num 5]
    (by decide) (by decide)
  exact ⟨h.2.1, h.2.2.2.1, h.2.2.2.2.1⟩

theorem pjProcLines_some_ok (lines : List (List Nat)) :
    ∀ c h, ∃ h2, PJ.procLines lines (some c) h = .ok h2 := by
  induction lines with
  | nil => intro c h; exact ⟨_, rfl⟩
  | cons l rest ih =>
    intro c h
    simp only [PJ.procLines]
    by_cases he : (trimB l).isEmpty = true
    · rw [if_pos he]; exact ih c h
    · rw [if_neg he]
      cases hts : splitTokens (trimB l) with
      | nil => exact ih c h
      | cons key parts =>
        dsimp only
        by_cases hf : strOf key = "format"
        · rw [if_pos hf]; exact ih c _
        · rw [if_neg hf]
          by_cases hel : strOf key = "element"
          · rw [if_pos hel]; exact ih _ _
          · rw [if_neg hel]
            by_cases hp : strOf key = "property"
            · rw [if_pos hp]; exact ih _ _
            · rw [if_neg hp]; exact ih c h

theorem pjProcLines_none (lines : List (List Nat)) :
    ∀ h, (propertyBeforeElement lines = true →
            PJ.procLines lines none h = .error .typeErr) ∧
         (propertyBeforeElement lines = false →
            ∃ h2, PJ.procLines lines none h = .ok h2) := by
  induction lines with
  | nil =>
    intro h
    refine ⟨fun hp => ?_, fun _ => ⟨_, rfl⟩⟩
    simp [propertyBeforeElement] at hp
  | cons l rest ih =>
    intro h
    simp only [PJ.procLines, propertyBeforeElement]
    by_cases he : (trimB l).isEmpty = true
    · rw [if_pos he, if_pos he]; exact ih h
    · rw [if_neg he, if_neg he]
      cases hts : splitTokens (trimB l) with
      | nil => exact ih h
      | cons key parts =>
        dsimp only
        by_cases hp : strOf key = "property"
        · have hf : ¬ strOf key = "format" := by rw [hp]; decide
          have hel : ¬ strOf key = "element" := by rw [hp]; decide
          simp only [if_pos hp, if_neg hf, if_neg hel]
          exact ⟨fun _ => trivial, fun hfalse => by simp at hfalse⟩
        · by_cases hel : strOf key = "element"
          · have hf : ¬ strOf key = "format" := by rw [hel]; decide
            simp only [if_pos hel, if_neg hf, if_neg hp]
            exact ⟨fun htrue => by simp at htrue, fun _ => pjProcLines_some_ok rest _ _⟩
          · by_cases hf : strOf key = "format"
            · simp only [if_pos hf, if_neg hp, if_neg hel]
              exact ih _
            · simp only [if_neg hf, if_neg hp, if_neg hel]
              exact ih h

/-- C7 amended: PLYLoader.js parseHeader fails exactly when a property line
appears before any element line, and then with a null-dereference TypeError
rather than MalformedHeader; headers with a non-numeric count or a short
property line (or any other header) are accepted and produce a schema. -/
theorem malformed_header_amended (text : List Nat) (hl : Nat) :
    (propertyBeforeElement (splitLines text) = true →
      PJ.parseHeader text hl = .error .typeErr) ∧
    (propertyBeforeElement (splitLines text) = false →
      ∃ h : Header, PJ.parseHeader text hl = .ok h) := by
  unfold PJ.parseHeader
  exact pjProcLines_none (splitLines text) { headerLength := hl }

/-- Witness for the amended malformed-header theorem: a header starting with
a property line fails with the TypeError, a property line after an element
line succeeds. -/
theorem malformed_header_amended_witness :
    PJ.parseHeader (bytesOf hdrPropFirst) 0 = .error .typeErr ∧
    ∃ h : Header, PJ.parseHeader (bytesOf hdrGood) 0 = .ok h :=
  ⟨(malformed_header_amended (bytesOf hdrPropFirst) 0).1 (by decide),
   (malformed_header_amended (bytesOf hdrGood) 0).2 (by decide)⟩

theorem p1FindName_none (pname : String) (t : Option String)
    (cands : List String) (h2 : pname ∉ p1AliasNames)
    (hs : ∀ n ∈ cands, n ∈ p1AliasNames) :
    findName [PropSpec.scalar t (some pname)] cands = none := by
  unfold findName
  rw [List.find?_eq_none]
  intro n hn
  simp only [List.any_cons, List.any_nil, Bool.or_false, PropSpec.pname,
    Option.some.injEq, decide_eq_true_eq]
  intro he
  exact h2 (he ▸ hs n hn)

/-- C8 amended: when a vertex element's property names resolve no position
component, parse still returns a Mesh whose position entries are undefined
(there is no MissingPositionAttribute failure): PLYLoader.js parseASCII
pushes three undefined values per record, and part_001's handleElement (its
mapAttributes falling back to the literal names x, y, z) likewise pushes
three undefined values. -/
theorem missing_position_amended (pname : String) (toks : List (List Nat))
    (h1 : pname ∉ pjRoleNames) (h2 : pname ∉ p1AliasNames) :
    PJ.parseASCII (c8Hdr pname) toks =
      { vertices := [.undef, .undef, .undef], colors := [], indices := [] } ∧
    ∀ v : Val, P1.handleElement {} oVertex [(pname, .v v)]
        (P1.mapAttributes [.scalar (some (r"float")) (some pname)]) =
      { indices := [], vertices := [.v .undef, .v .undef, .v .undef],
        normals := [], uvs := [], faceVertexUvs := [], colors := [],
        faceVertexColors := [] } := by
  constructor
  · simp only [pjRoleNames, List.mem_cons, List.not_mem_nil, or_false] at h1
    push_neg at h1
    obtain ⟨hx, hy, hz, hr, hg, hb⟩ := h1
    simp [PJ.parseASCII, c8Hdr, PJ.asciiVertexLoop, PJ.asciiVertexRec, PJ.assign,
      PJ.pushVertex, PropSpec.pname, PropSpec.jsType, Option.some.injEq,
      oX, oY, oZ, oRed, oGreen, oBlue, hx, hy, hz, hr, hg, hb,
      show iterCount (Val.num 1) = 1 by decide]
  · intro v
    have hx : pname ≠ "x" := fun he => h2 (by rw [he]; decide)
    have hy : pname ≠ "y" := fun he => h2 (by rw [he]; decide)
    have hz : pname ≠ "z" := fun he => h2 (by rw [he]; decide)
    have f1 := p1FindName_none pname (some (r"float")) [r"x", r"px", r"posx"] h2 (by decide)
    have f2 := p1FindName_none pname (some (r"float")) [r"y", r"py", r"posy"] h2 (by decide)
    have f3 := p1FindName_none pname (some (r"float")) [r"z", r"pz", r"posz"] h2 (by decide)
    have f4 := p1FindName_none pname (some (r"float")) [r"nx", r"normalx"] h2 (by decide)
    have f5 := p1FindName_none pname (some (r"float")) [r"ny", r"normaly"] h2 (by decide)
    have f6 := p1FindName_none pname (some (r"float")) [r"nz", r"normalz"] h2 (by decide)
    have f7 := p1FindName_none pname (some (r"float")) [r"s", r"u", r"tex_u"] h2 (by decide)
    have f8 := p1FindName_none pname (some (r"float")) [r"t", r"v", r"tex_v"] h2 (by decide)
    have f9 := p1FindName_none pname (some (r"float")) [r"red", r"diffuse_red", r"r"] h2
      (by decide)
    have f10 := p1FindName_none pname (some (r"float")) [r"green", r"diffuse_green", r"g"] h2
      (by decide)
    have f11 := p1FindName_none pname (some (r"float")) [r"blue", r"diffuse_blue", r"b"] h2
      (by decide)
    simp [P1.handleElement, P1.mapAttributes, f1, f2, f3, f4, f5, f6, f7, f8, f9, f10, f11,
      truthyS, getR, lookupR, hx, hy, hz]

/-- Witness for the amended missing-position theorem at the property name
foo. -/
theorem missing_position_amended_witness :
    PJ.parseASCII (c8Hdr fooName) [] =
      { vertices := [.undef, .undef, .undef], colors := [], indices := [] } ∧
    P1.handleElement {} oVertex [(fooName, .v (.num 3))]
        (P1.mapAttributes [.scalar (some (r"float")) (some fooName)]) =
      { indices := [], vertices := [.v .undef, .v .undef, .v .undef],
        normals := [], uvs := [], faceVertexUvs := [], colors := [],
        faceVertexColors := [] } := by
  have h := missing_position_amended fooName [] (by decide) (by decide)
  exact ⟨h.1, h.2 (.num 3)⟩

/-- C9: in the part_001 binary parser every read goes to headerLength +
cursor inside a DataView already based at headerLength, so for any
headerLength and payload (the byte array of the whole file) the first
property of the first record — here a one-record vertex with a single uchar
x — is decoded from file byte 2 × headerLength. -/
theorem double_offset_confirmed (hl : Nat) (payload : List Nat) (v : Nat)
    (hv : v < 256) (hget : payload.get? (2 * hl) = some v) :
    P1.parseBinary payload (c9Hdr hl) =
      .ok { indices := [], vertices := [.v (.num v), .v .undef, .v .undef],
            normals := [], uvs := [], faceVertexUvs := [], colors := [],
            faceVertexColors := [] } := by
  have hlen : 2 * hl < payload.length := by
    rcases List.get?_eq_some.mp hget with ⟨hlt, _⟩; exact hlt
  have hvv : payload[2 * hl] = v := by
    rcases List.get?_eq_some.mp hget with ⟨hlt, hvv⟩; simpa using hvv
  have hdrop : (payload.drop (hl + (hl + 0))).take 1 = [v] := by
    have he : hl + (hl + 0) = 2 * hl := by omega
    rw [he, List.drop_eq_getElem_cons hlen]
    simp [hvv]
  have ht : typeDecodeO (some (r"uchar")) = some (1, fun n : Nat => Val.num (n : Rat)) := by
    simp [typeDecodeO, typeDecode]
  have hread : dvRead ⟨payload, hl⟩ true (some (r"uchar")) (hl + 0) = .ok (.num v) := by
    unfold dvRead
    rw [ht]
    dsimp only
    rw [if_pos (by omega : hl + (hl + 0) + 1 ≤ payload.length)]
    rw [hdrop]
    simp [natOfBytes, leNat, Nat.mod_eq_of_lt hv]
  have hrec : P1.binRecord ⟨payload, hl⟩ hl true
      [PropSpec.scalar (some (r"uchar")) oX] [] 0 =
      .ok ([(keyOf oX, RVal.v (.num v))], 0 + 1) := by
    simp only [P1.binRecord, ht, hread]
    rfl
  have hhandle : P1.handleElement {} oVertex [(keyOf oX, RVal.v (.num v))]
      (P1.mapAttributes [PropSpec.scalar (some (r"uchar")) oX]) =
      { indices := [], vertices := [.v (.num v), .v .undef, .v .undef],
        normals := [], uvs := [], faceVertexUvs := [], colors := [],
        faceVertexColors := [] } := by
    simp [P1.handleElement, P1.mapAttributes, findName, getR, lookupR, truthyS,
      keyOf, oX, PropSpec.pname]
  have helem : P1.binElem ⟨payload, hl⟩ hl true
      { name := oVertex, count := .num 1,
        properties := [PropSpec.scalar (some (r"uchar")) oX] } (({} : Buf), 0) =
      .ok ({ indices := [], vertices := [.v (.num v), .v .undef, .v .undef],
             normals := [], uvs := [], faceVertexUvs := [], colors := [],
             faceVertexColors := [] }, 0 + 1) := by
    simp only [P1.binElem, show iterCount (Val.num 1) = 1 by decide, iterE, hrec, hhandle]
    rfl
  unfold P1.parseBinary
  simp only [c9Hdr]
  rw [if_neg (by omega : ¬ payload.length < hl)]
  simp only [foldE, decide_True, helem]
  rfl

/-- Witness for the double-offset theorem: headerLength 1 over the 3-byte
buffer 5,6,7 reads the vertex x from byte 2 (value 7), not from byte 1. -/
theorem double_offset_confirmed_witness :
    P1.parseBinary [5, 6, 7] (c9Hdr 1) =
      .ok { indices := [], vertices := [.v (.num 7), .v .undef, .v .undef],
            normals := [], uvs := [], faceVertexUvs := [], colors := [],
            faceVertexColors := [] } :=
  double_offset_confirmed 1 [5, 6, 7] 7 (by decide) (by decide)

theorem iterCount_natCast (n : Nat) : iterCount (.num (n : Rat)) = n := by
  unfold iterCount listIters
  dsimp only
  rcases Nat.eq_zero_or_pos n with h0 | hpos
  · subst h0; simp
  · rw [if_neg (by simp [Nat.cast_nonpos]; omega : ¬ ((n : Rat) ≤ 0))]
    simp

theorem pjDvRead_scalar (payload : List Nat) (little : Bool) (t : String)
    (sd : Nat × (Nat → Val)) (ht : typeDecode t = some sd) (o : Nat) :
    (o + sd.1 ≤ payload.length →
      dvRead ⟨payload, 0⟩ little (some t) o =
        .ok (sd.2 (natOfBytes ((payload.drop (0 + o)).take sd.1) little))) ∧
    (payload.length < o + sd.1 →
      dvRead ⟨payload, 0⟩ little (some t) o = .error .rangeErr) := by
  constructor
  · intro hle
    unfold dvRead
    simp only [typeDecodeO, ht]
    rw [if_pos (by simpa using hle)]
  · intro hgt
    unfold dvRead
    simp only [typeDecodeO, ht]
    rw [if_neg (by omega : ¬ ((⟨payload, 0⟩ : DataView).base + o + sd.1 ≤ payload.length))]

theorem pjVertexStep_scalar (payload : List Nat) (little : Bool) (t : String)
    (sd : Nat × (Nat → Val)) (ht : typeDecode t = some sd) (m : PJ.Mesh) (o : Nat) :
    (o + sd.1 ≤ payload.length →
      ∃ m2, PJ.binVertexStep ⟨payload, 0⟩ little [.scalar (some t) oX] (m, o) =
        .ok (m2, o + sd.1)) ∧
    (payload.length < o + sd.1 →
      PJ.binVertexStep ⟨payload, 0⟩ little [.scalar (some t) oX] (m, o) =
        .error .rangeErr) := by
  constructor
  · intro hle
    have hr := (pjDvRead_scalar payload little t sd ht o).1 hle
    simp only [PJ.binVertexStep, PJ.binVertexRec, typeDecodeO, ht, hr]
    exact ⟨_, rfl⟩
  · intro hgt
    have hr := (pjDvRead_scalar payload little t sd ht o).2 hgt
    simp only [PJ.binVertexStep, PJ.binVertexRec, typeDecodeO, ht, hr]
    rfl

theorem pjScalarLoop (payload : List Nat) (little : Bool) (t : String)
    (sd : Nat × (Nat → Val)) (ht : typeDecode t = some sd) (n : Nat) :
    ∀ (m : PJ.Mesh) (o : Nat),
      (o + n * sd.1 ≤ payload.length →
        ∃ m2, iterE (PJ.binVertexStep ⟨payload, 0⟩ little [.scalar (some t) oX]) n (m, o) =
          .ok (m2, o + n * sd.1)) ∧
      (payload.length < o + n * sd.1 → 1 ≤ n →
        iterE (PJ.binVertexStep ⟨payload, 0⟩ little [.scalar (some t) oX]) n (m, o) =
          .error .rangeErr) := by
  induction n with
  | zero =>
    intro m o
    refine ⟨fun _ => ⟨m, by simp [iterE]⟩, fun _ h1 => by omega⟩
  | succ k ih =>
    intro m o
    constructor
    · intro hle
      rw [Nat.succ_mul] at hle
      have hw : o + sd.1 ≤ payload.length := by omega
      obtain ⟨m2, hm2⟩ := (pjVertexStep_scalar payload little t sd ht m o).1 hw
      obtain ⟨m3, hm3⟩ := (ih m2 (o + sd.1)).1 (by omega)
      refine ⟨m3, ?_⟩
      simp only [iterE, hm2]
      have he : o + sd.1 + k * sd.1 = o + (k + 1) * sd.1 := by
        rw [Nat.succ_mul]; omega
      rw [← he]
      simpa using hm3
    · intro hgt _
      rw [Nat.succ_mul] at hgt
      by_cases hw : o + sd.1 ≤ payload.length
      · obtain ⟨m2, hm2⟩ := (pjVertexStep_scalar payload little t sd ht m o).1 hw
        have hk : 1 ≤ k := by
          rcases Nat.eq_zero_or_pos k with h0 | h1
          · subst h0; simp at hgt; omega
          · exact h1
        have herr := (ih m2 (o + sd.1)).2 (by omega) hk
        simp only [iterE, hm2]
        simpa using herr
      · have herr := (pjVertexStep_scalar payload little t sd ht m o).2 (by omega)
        simp only [iterE, herr]
        rfl

/-- C6 amended: no TruncatedPayload error exists.  In binary mode (shown for
a vertex schema of n records of one scalar property of width sd.1): when the
declared records fit, parse succeeds — in particular under-read is not
detected — and when they over-run the payload it fails with the DataView
RangeError of the first out-of-bounds read.  In ASCII mode, exhausting the
token sequence produces NaN values and parse still returns a mesh. -/
theorem truncation_amended (t : String) (sd : Nat × (Nat → Val)) (n : Nat)
    (payload : List Nat) (ht : typeDecode t = some sd) :
    ((n * sd.1 ≤ payload.length →
        ∃ m : PJ.Mesh, PJ.parseBinary payload (scalarVertexHdr t n) = .ok m) ∧
     (payload.length < n * sd.1 →
        PJ.parseBinary payload (scalarVertexHdr t n) = .error .rangeErr)) ∧
    PJ.parseASCII asciiXYZHdr [] =
      { vertices := [.nan, .nan, .nan], colors := [], indices := [] } := by
  refine ⟨⟨?_, ?_⟩, by decide⟩
  · intro hle
    obtain ⟨m2, hm2⟩ :=
      (pjScalarLoop payload true t sd ht n ({} : PJ.Mesh) 0).1 (by omega)
    refine ⟨m2, ?_⟩
    unfold PJ.parseBinary
    simp only [scalarVertexHdr]
    rw [if_neg (by omega : ¬ payload.length < 0)]
    simp only [foldE, PJ.binElem, decide_True, iterCount_natCast]
    simp only [Nat.zero_add] at hm2
    simp [hm2]
    rfl
  · intro hgt
    have hn : 1 ≤ n := by
      rcases Nat.eq_zero_or_pos n with h0 | h1
      · subst h0; simp at hgt
      · exact h1
    have herr :=
      (pjScalarLoop payload true t sd ht n ({} : PJ.Mesh) 0).2 (by omega) hn
    unfold PJ.parseBinary
    simp only [scalarVertexHdr]
    rw [if_neg (by omega : ¬ payload.length < 0)]
    simp only [foldE, PJ.binElem, decide_True, iterCount_natCast]
    simp only [Nat.zero_add] at herr
    simp [herr]
    rfl

/-- Witness for the amended truncation theorem with uchar records: two
records over a one-byte payload fail with the RangeError, one record over
the same payload succeeds. -/
theorem truncation_amended_witness :
    PJ.parseBinary [3] (scalarVertexHdr sUchar 2) = .error .rangeErr ∧
    (∃ m : PJ.Mesh, PJ.parseBinary [3] (scalarVertexHdr sUchar 1) = .ok m) ∧
    PJ.parseASCII asciiXYZHdr [] =
      { vertices := [.nan, .nan, .nan], colors := [], indices := [] } := by
  have h2 := truncation_amended sUchar (1, fun n : Nat => Val.num (n : Rat)) 2 [3]
    (by simp [typeDecode, sUchar])
  have h1 := truncation_amended sUchar (1, fun n : Nat => Val.num (n : Rat)) 1 [3]
    (by simp [typeDecode, sUchar])
  exact ⟨h2.1.2 (by decide), h1.1.1 (by decide), h1.2⟩

/-- C6 counterexample: a binary payload of two bytes for a schema that
declares a single one-byte vertex record is under-read, yet parse succeeds
instead of failing with TruncatedPayload; and an ASCII body with no tokens
for a three-property vertex record is exhausted, yet parse returns a mesh of
NaN positions instead of failing. -/
theorem truncation_cex :
    PJ.parseBinary [5, 99] (scalarVertexHdr sUchar 1) =
      .ok { vertices := [.num 5, .undef, .undef], colors := [], indices := [] } ∧
    PJ.parseASCII asciiXYZHdr [] =
      { vertices := [.nan, .nan, .nan], colors := [], indices := [] } := by
  constructor <;> rfl

theorem pjVertexRec_list_err (dv : DataView) (little : Bool) :
    ∀ (props : List PropSpec) (a : PJ.VAssign) (o : Nat),
      (∃ p ∈ props, p.isListP = true) →
      ∃ err, PJ.binVertexRec dv little props a o = .error err := by
  intro props
  induction props with
  | nil =>
    rintro a o ⟨p, hp, -⟩
    exact absurd hp (List.not_mem_nil p)
  | cons q rest ih =>
    rintro a o ⟨p, hp, hl⟩
    cases q with
    | list ct it nm => exact ⟨_, rfl⟩
    | scalar t nm =>
      have hpr : p ∈ rest := by
        rcases List.mem_cons.mp hp with he | hm
        · subst he; simp [PropSpec.isListP] at hl
        · exact hm
      simp only [PJ.binVertexRec]
      cases htd : typeDecodeO t with
      | none => exact ⟨_, rfl⟩
      | some sd =>
        cases hr : dvRead dv little t o with
        | error e2 =>
          refine ⟨e2, ?_⟩
          simp only [hr]
          rfl
        | ok v =>
          obtain ⟨err, herr⟩ := ih (PJ.assign a nm v) (o + sd.1) ⟨p, hpr, hl⟩
          refine ⟨err, ?_⟩
          simp only [hr]
          exact herr

theorem pjBinElem_vertex_list_err (dv : DataView) (little : Bool) (e : PElem)
    (st : PJ.Mesh × Nat) (hn : e.name = oVertex) (hc : 1 ≤ iterCount e.count)
    (hp : ∃ p ∈ e.properties, p.isListP = true) :
    ∃ err, PJ.binElem dv little e st = .error err := by
  obtain ⟨k, hk⟩ : ∃ k, iterCount e.count = k + 1 := ⟨iterCount e.count - 1, by omega⟩
  obtain ⟨err, herr⟩ := pjVertexRec_list_err dv little e.properties {} st.2 hp
  refine ⟨err, ?_⟩
  simp only [PJ.binElem, hn, hk, iterE]
  simp only [PJ.binVertexStep, herr]
  rfl

theorem pjFold_vertex_list_err (dv : DataView) (little : Bool) :
    ∀ (elems : List PElem) (st : PJ.Mesh × Nat),
      (∃ e ∈ elems, e.name = oVertex ∧ 1 ≤ iterCount e.count ∧
        ∃ p ∈ e.properties, p.isListP = true) →
      ∃ err, foldE (PJ.binElem dv little) elems st = .error err := by
  intro elems
  induction elems with
  | nil =>
    rintro st ⟨e, he, -⟩
    exact absurd he (List.not_mem_nil e)
  | cons e0 rest ih =>
    rintro st ⟨e, he, hn, hc, hp⟩
    rcases List.mem_cons.mp he with heq | hm
    · subst heq
      obtain ⟨err, herr⟩ := pjBinElem_vertex_list_err dv little e st hn hc hp
      refine ⟨err, ?_⟩
      simp only [foldE, herr]
      rfl
    · cases hr : PJ.binElem dv little e0 st with
      | error err2 =>
        refine ⟨err2, ?_⟩
        simp only [foldE, hr]
        rfl
      | ok st2 =>
        obtain ⟨err, herr⟩ := ih st2 ⟨e, hm, hn, hc, hp⟩
        refine ⟨err, ?_⟩
        simp only [foldE, hr]
        exact herr

/-- C10: whenever a binary header declares an element named vertex with
declared count at least 1 and some list property, PLYLoader.js parseBinary
throws (an error results, never a Mesh), for every payload; and the ASCII
path of the same file performs no such check: the complete ASCII file whose
vertex declares a list property parses to a mesh without failing. -/
theorem vertex_list_reject_confirmed (h : Header) (payload : List Nat)
    (e : PElem) (c : Rat) (p : PropSpec)
    (he : e ∈ h.elements) (hn : e.name = oVertex)
    (hc : e.count = .num c) (hc1 : 1 ≤ c)
    (hp : p ∈ e.properties) (hl : p.isListP = true) :
    (∃ err, PJ.parseBinary payload h = .error err) ∧
    PJ.parse (bytesOf fileC10) =
      .ok { vertices := [.num 1, .undef, .undef], colors := [], indices := [] } := by
  refine ⟨?_, by rfl⟩
  have hcpos : (0 : Rat) < c := lt_of_lt_of_le zero_lt_one hc1
  have hic : 1 ≤ iterCount e.count := by
    rw [hc]
    unfold iterCount listIters
    dsimp only
    rw [if_neg (not_le.mpr hcpos)]
    have hnum : 1 ≤ c.num := Rat.num_pos.mpr hcpos
    have hden : (0 : Int) < (c.den : Int) := by
      exact_mod_cast Nat.pos_of_ne_zero c.den_nz
    have hq : (1 : Int) ≤ (c.num + (c.den : Int) - 1) / (c.den : Int) := by
      rw [Int.le_ediv_iff_mul_le hden]
      omega
    omega
  by_cases hhl : payload.length < h.headerLength
  · refine ⟨.rangeErr, ?_⟩
    unfold PJ.parseBinary
    rw [if_pos hhl]
  · obtain ⟨err, herr⟩ := pjFold_vertex_list_err ⟨payload, h.headerLength⟩
      (decide (h.format = oBinLE)) h.elements (({} : PJ.Mesh), 0)
      ⟨e, he, hn, hic, p, hp, hl⟩
    refine ⟨err, ?_⟩
    unfold PJ.parseBinary
    rw [if_neg hhl]
    simp only [herr]
    rfl

/-- Witness for the vertex-list-reject theorem: the one-record binary vertex
schema with the uchar-counted int list errors on the payload 3,0,0. -/
theorem vertex_list_reject_confirmed_witness :
    (∃ err, PJ.parseBinary [3, 0, 0] c10Hdr = .error err) ∧
    PJ.parse (bytesOf fileC10) =
      .ok { vertices := [.num 1, .undef, .undef], colors := [], indices := [] } :=
  vertex_list_reject_confirmed c10Hdr [3, 0, 0]
    { name := oVertex, count := .num 1,
      properties := [.list (some (r"uchar")) (some (r"int")) (some sVertexIndices)] }
    1 (.list (some (r"uchar")) (some (r"int")) (some sVertexIndices))
    (by decide) (by decide) (by decide) (by decide) (by decide) (by decide)

end Ply
